import Mathlib

/-!
Verification of the kumoctl MCP tool-generation core (pkg/mcp/tools.go,
pkg/openapi/openapi.go, pkg/openapi/openapi_2_spec.go) against its
natural-language specification.

The Go code is shallowly embedded: Go maps become association lists,
Go interfaces become records of their method results, fallible calls
return `Except String`, and the outcomes of foreign library calls
(JSON/YAML parsers, the HTTP transport) are passed in explicitly.
-/

/-- Model of a Go runtime value as it can appear in an `APIToolInput`
(`map[string]interface{}`) or as a schema default.  `goFormat` models
`fmt.Sprintf("%v", value)` on these variants. -/
inductive GoValue where
  | str (s : String)
  | int (n : Int)
  | bool (b : Bool)
deriving Repr, DecidableEq

/-- Model of Go `fmt.Sprintf("%v", v)`: strings print verbatim, integers in
base ten, booleans as `true` / `false`. -/
def goFormat : GoValue → String
  | .str s => s
  | .int n => toString n
  | .bool b => if b then "true" else "false"

/-- Model of Go `fmt.Sprintf("%v", xs)` for a `[]string`: the elements
space-separated inside square brackets. -/
def goFormatStringSlice (xs : List String) : String :=
  "[" ++ String.intercalate " " xs ++ "]"

/-- `APIToolInput` from tools.go: `map[string]interface{}`, modelled as an
association list with unique keys; lookup takes the first binding. -/
def APIToolInput := List (String × GoValue)

/-- Go map lookup `input[k]`. -/
def lookupInput (input : APIToolInput) (k : String) : Option GoValue :=
  match input with
  | [] => none
  | (k2, v) :: rest => if k2 = k then some v else lookupInput rest k

/-- One token of the path template as decomposed by the regular expression
`\x7b([^\x7d]+)\x7d` of `buildURL`: either a character left untouched or a
matched placeholder with its name. -/
inductive PathTok where
  | lit (c : Char)
  | param (name : String)
deriving Repr, DecidableEq

/-- Left-to-right scan of a path template for matches of the regular
expression `\x7b([^\x7d]+)\x7d`, exactly as `ReplaceAllStringFunc` visits
them in `buildURL`.  The second argument is the scanner state: `none`
outside any candidate match, `some acc` after a left brace with `acc` the
(reversed) candidate placeholder characters read so far.  A match requires
at least one non-right-brace character between the braces; a left brace
followed directly by a right brace, or left unclosed to the end of the
template, stays literal (and nothing after it can match, since no right
brace remains). -/
def scanTok : List Char → Option (List Char) → List PathTok
  | [], none => []
  | [], some acc => PathTok.lit '{' :: acc.reverse.map PathTok.lit
  | c :: cs, none =>
    if c = '{' then scanTok cs (some [])
    else PathTok.lit c :: scanTok cs none
  | c :: cs, some acc =>
    if c = '}' then
      match acc with
      | [] => PathTok.lit '{' :: PathTok.lit '}' :: scanTok cs none
      | _ :: _ => PathTok.param (String.mk acc.reverse) :: scanTok cs none
    else scanTok cs (some (c :: acc))

/-- Decompose a path template into the spans matched by the placeholder
regular expression of `buildURL` and the characters left untouched. -/
def regexScan (l : List Char) : List PathTok :=
  scanTok l none

example : regexScan "/users/\x7bid\x7d".data
    = ([PathTok.lit '/', .lit 'u', .lit 's', .lit 'e', .lit 'r', .lit 's',
        .lit '/', .param "id"] : List PathTok) := by decide

example : regexScan "/a\x7b\x7db/\x7bx\x7bY\x7d".data
    = ([PathTok.lit '/', .lit 'a', .lit '{', .lit '}', .lit 'b', .lit '/',
        .param "x\x7bY"] : List PathTok) := by decide

example : regexScan "/a/\x7bunclosed".data
    = ([PathTok.lit '/', .lit 'a', .lit '/', .lit '{', .lit 'u', .lit 'n',
        .lit 'c', .lit 'l', .lit 'o', .lit 's', .lit 'e', .lit 'd'] : List PathTok) := by
  decide

/-- Render one scanned token the way the replacement callback in `buildURL`
does: a matched placeholder becomes `fmt.Sprintf("%v", value)` when the
input has the key and is kept verbatim (for error reporting) when it does
not; unmatched characters pass through. -/
def renderTok (input : APIToolInput) : PathTok → List Char
  | .lit c => [c]
  | .param n =>
    match lookupInput input n with
    | some v => (goFormat v).data
    | none => '{' :: n.data ++ ['}']

/-- The names of all placeholders the regular expression matches in a path
template, in scanning order. -/
def placeholders (path : String) : List String :=
  (regexScan path.data).filterMap fun t =>
    match t with
    | .param n => some n
    | .lit _ => none

/-- The substitution pass of `buildURL`: the substituted path together with
the list of placeholder names that had no key in the input, collected in
scanning order by the replacement callback. -/
def substPath (path : String) (input : APIToolInput) : String × List String :=
  let toks := regexScan path.data
  (String.mk (toks.flatMap (renderTok input)),
   toks.filterMap fun t =>
     match t with
     | .param n => if (lookupInput input n).isSome then none else some n
     | .lit _ => none)

/-- Go `strings.TrimSuffix(baseURL, "/")`: drop one trailing slash. -/
def trimSuffixSlash (s : String) : String :=
  if s.data.getLast? = some '/' then String.mk s.data.dropLast else s

/-- Model of a parsed Go `net/url.URL`, for the absolute
`scheme://host/path` URLs this program builds: the path is stored
percent-decoded, the raw query and fragment verbatim. -/
structure URL where
  scheme : String
  host : String
  path : String
  rawQuery : String
  fragment : String
deriving Repr, DecidableEq

/-- Hexadecimal digit value, as `net/url` accepts in a percent escape. -/
def hexVal (c : Char) : Option Nat :=
  if '0' ≤ c ∧ c ≤ '9' then some (c.toNat - '0'.toNat)
  else if 'a' ≤ c ∧ c ≤ 'f' then some (c.toNat - 'a'.toNat + 10)
  else if 'A' ≤ c ∧ c ≤ 'F' then some (c.toNat - 'A'.toNat + 10)
  else none

/-- Percent-decoding of a URL path as `net/url.Parse` performs it: each
`%XY` with two hex digits becomes the character with that code (the model
is byte-accurate for ASCII escapes, the only ones exercised here); an
invalid escape makes parsing fail. -/
def percentDecode (l : List Char) : Option (List Char) :=
  match l with
  | [] => some []
  | '%' :: rest =>
    match rest with
    | a :: b :: rest2 =>
      match hexVal a, hexVal b with
      | some x, some y =>
        match percentDecode rest2 with
        | some d => some (Char.ofNat (16 * x + y) :: d)
        | none => none
      | _, _ => none
    | _ => none
  | c :: rest =>
    match percentDecode rest with
    | some d => some (c :: d)
    | none => none

/-- Scan for the first `://`, returning the characters before it and after
it; models how `net/url.Parse` cuts off the scheme of an absolute URL. -/
def splitScheme : List Char → Option (List Char × List Char)
  | [] => none
  | ':' :: '/' :: '/' :: rest => some ([], rest)
  | c :: cs =>
    match splitScheme cs with
    | some (s, rest) => some (c :: s, rest)
    | none => none

/-- Split a character list at the first occurrence of `c`: the part before
and, when found, the part after. -/
def splitAtFirst (l : List Char) (c : Char) : List Char × Option (List Char) :=
  match l with
  | [] => ([], none)
  | x :: xs =>
    if x = c then ([], some xs)
    else
      let r := splitAtFirst xs c
      (x :: r.1, r.2)

/-- Model of Go `net/url.Parse` on the URLs this program constructs:
the fragment is cut at the first `#`, the raw query at the first `?`, the
scheme at `://`, the host runs to the first `/`, and the remaining path is
percent-decoded (an invalid escape is a parse error).  A string with no
`://` is parsed as a bare path. -/
def urlParse (s : String) : Except String URL :=
  let fr := splitAtFirst s.data '#'
  let qr := splitAtFirst fr.1 '?'
  let frag := String.mk (fr.2.getD [])
  let rawQuery := String.mk (qr.2.getD [])
  match splitScheme qr.1 with
  | some (schemeChars, rest) =>
    let hp := splitAtFirst rest '/'
    let pathChars := match hp.2 with
      | some after => '/' :: after
      | none => []
    match percentDecode pathChars with
    | some decoded =>
      Except.ok ⟨String.mk schemeChars, String.mk hp.1, String.mk decoded, rawQuery, frag⟩
    | none => Except.error "invalid URL escape"
  | none =>
    match percentDecode qr.1 with
    | some decoded => Except.ok ⟨"", "", String.mk decoded, rawQuery, frag⟩
    | none => Except.error "invalid URL escape"

/-- Embedding of `buildURL` from tools.go: substitute every matched
placeholder of the path template, fail with the complete list of missing
placeholder names if any key was absent from the input, otherwise join the
base URL (one trailing slash stripped) with the substituted path and parse
the result as a URL. -/
def buildURL (baseURL path : String) (input : APIToolInput) : Except String URL :=
  let fm := substPath path input
  if fm.2 = [] then
    urlParse (trimSuffixSlash baseURL ++ fm.1)
  else
    Except.error ("missing required path parameters: " ++ goFormatStringSlice fm.2)

example :
    buildURL "http://api.example.com" "/users/\x7buserId\x7d" [("userId", GoValue.str "123")]
      = Except.ok ⟨"http", "api.example.com", "/users/123", "", ""⟩ := by rfl

example :
    buildURL "http://api.example.com" "/users/\x7bid\x7d/p/\x7bpid\x7d" []
      = Except.error "missing required path parameters: [id pid]" := by rfl

/-- The `openapi.Schema` interface from pkg/openapi/openapi.go, modelled as
a record of its method results: type, format, description, property map
(association list), item schema, required list, enum values and default.
Both dialect implementations are mapped into this one shape. -/
inductive SchemaI where
  | mk (typeStr format description : String)
       (properties : List (String × SchemaI))
       (items : Option SchemaI)
       (required : List String)
       (enum : List GoValue)
       (dflt : Option GoValue)

/-- Result of the `GetType` interface method. -/
def SchemaI.getType : SchemaI → String
  | .mk t _ _ _ _ _ _ _ => t

/-- Result of the `GetFormat` interface method. -/
def SchemaI.getFormat : SchemaI → String
  | .mk _ f _ _ _ _ _ _ => f

/-- Result of the `GetDescription` interface method. -/
def SchemaI.getDescription : SchemaI → String
  | .mk _ _ d _ _ _ _ _ => d

/-- Result of the `GetProperties` interface method. -/
def SchemaI.getProperties : SchemaI → List (String × SchemaI)
  | .mk _ _ _ p _ _ _ _ => p

/-- Result of the `GetItems` interface method. -/
def SchemaI.getItems : SchemaI → Option SchemaI
  | .mk _ _ _ _ i _ _ _ => i

/-- Result of the `GetRequired` interface method. -/
def SchemaI.getRequired : SchemaI → List String
  | .mk _ _ _ _ _ r _ _ => r

/-- Result of the `GetEnum` interface method. -/
def SchemaI.getEnum : SchemaI → List GoValue
  | .mk _ _ _ _ _ _ e _ => e

/-- Result of the `GetDefault` interface method. -/
def SchemaI.getDefault : SchemaI → Option GoValue
  | .mk _ _ _ _ _ _ _ d => d

/-- The `openapi.Parameter` interface, as the record of its method
results (`GetName`, `GetIn`, `GetDescription`, `IsRequired`, `GetType`,
`GetFormat`, `GetSchema`). -/
structure ParameterI where
  name : String
  inLoc : String
  description : String
  required : Bool
  typeStr : String
  format : String
  schema : Option SchemaI

/-- The `openapi.RequestBody` interface: the one method `GetJSONSchema`
returns either an error, no schema (`nil, nil` in Go), or a schema. -/
structure RequestBodyI where
  jsonSchema : Except String (Option SchemaI)

/-- The `openapi.Operation` interface as the record of its method results. -/
structure OperationI where
  operationID : String
  summary : String
  parameters : List ParameterI
  requestBody : Option RequestBodyI

/-- Go `url.Values`: a map from parameter name to its list of values,
modelled as an association list with unique keys. -/
abbrev Values := List (String × List String)

/-- Go map lookup on `url.Values`. -/
def valuesLookup (q : Values) (k : String) : Option (List String) :=
  match q with
  | [] => none
  | (k2, vs) :: rest => if k2 = k then some vs else valuesLookup rest k

/-- Go `url.Values.Set`: replace the value list of `k` by the single
value `v`. -/
def qSet : Values → String → String → Values
  | [], k, v => [(k, [v])]
  | (k2, vs) :: rest, k, v =>
    if k2 = k then (k2, [v]) :: rest else (k2, vs) :: qSet rest k v

/-- Go `url.Values.Add`: append `v` to the value list of `k`. -/
def qAdd : Values → String → String → Values
  | [], k, v => [(k, [v])]
  | (k2, vs) :: rest, k, v =>
    if k2 = k then (k2, vs ++ [v]) :: rest else (k2, vs) :: qAdd rest k v

/-- Upper-case hexadecimal digit, as `url.QueryEscape` emits. -/
def hexDigitUpper (n : Nat) : Char :=
  if n < 10 then Char.ofNat ('0'.toNat + n) else Char.ofNat ('A'.toNat + n - 10)

/-- Characters `url.QueryEscape` leaves unescaped in a query component:
ASCII letters, digits, and `-` `_` `.` `~`. -/
def isUnreservedQueryChar (c : Char) : Bool :=
  c.isAlphanum || c = '-' || c = '_' || c = '.' || c = '~'

/-- Model of Go `url.QueryEscape` (byte-accurate for ASCII, the domain
exercised here): unreserved characters pass, space becomes `+`, everything
else becomes an upper-case percent escape. -/
def queryEscape (s : String) : String :=
  String.mk (s.data.flatMap fun c =>
    if isUnreservedQueryChar c then [c]
    else if c = ' ' then ['+']
    else ['%', hexDigitUpper (c.toNat / 16), hexDigitUpper (c.toNat % 16)])

/-- Model of Go `url.QueryUnescape` on a query component: `+` becomes a
space, `%XY` decodes, an invalid escape is an error. -/
def queryUnescape (l : List Char) : Option (List Char) :=
  match l with
  | [] => some []
  | '%' :: rest =>
    match rest with
    | a :: b :: rest2 =>
      match hexVal a, hexVal b with
      | some x, some y =>
        match queryUnescape rest2 with
        | some d => some (Char.ofNat (16 * x + y) :: d)
        | none => none
      | _, _ => none
    | _ => none
  | '+' :: rest =>
    match queryUnescape rest with
    | some d => some (' ' :: d)
    | none => none
  | c :: rest =>
    match queryUnescape rest with
    | some d => some (c :: d)
    | none => none

/-- Split a character list on every occurrence of a separator, as Go
`strings.Split` does (and as the cut loop of `url.ParseQuery` visits the
`&`-separated query segments): `n` separators yield `n + 1` pieces,
empty pieces included. -/
def splitOnCharAux (c : Char) : List Char → List Char → List (List Char)
  | [], acc => [acc.reverse]
  | x :: xs, acc =>
    if x = c then acc.reverse :: splitOnCharAux c xs []
    else splitOnCharAux c xs (x :: acc)

/-- Model of Go `url.ParseQuery` as used by `URL.Query()` (errors are
discarded there): each `&`-separated segment is split at its first `=`,
both halves unescaped, and added to the value map; empty segments,
segments containing `;`, and segments with invalid escapes are skipped. -/
def parseQuery (raw : String) : Values :=
  (splitOnCharAux '&' raw.data []).foldl
    (fun m seg =>
      if seg.isEmpty then m
      else if seg.contains ';' then m
      else
        let kv := splitAtFirst seg '='
        match queryUnescape kv.1, queryUnescape (kv.2.getD []) with
        | some ks, some vs => qAdd m (String.mk ks) (String.mk vs)
        | _, _ => m)
    []

/-- Lexicographic comparison of character lists by code point; on UTF-8
strings this is exactly the byte order Go `sort.Strings` uses. -/
def charListLe : List Char → List Char → Bool
  | [], _ => true
  | _ :: _, [] => false
  | a :: as, b :: bs =>
    if a.toNat = b.toNat then charListLe as bs
    else decide (a.toNat < b.toNat)

/-- Lexicographic string order, the order of Go `sort.Strings`. -/
def stringLeB (a b : String) : Bool :=
  charListLe a.data b.data

/-- Sorting step of Go `url.Values.Encode`: the map keys are sorted
lexicographically (`sort.Strings`) before the query string is written. -/
def sortByKey (q : Values) : Values :=
  List.insertionSort (fun a b => stringLeB a.1 b.1 = true) q

/-- Model of Go `url.Values.Encode`: pairs are emitted in lexicographic
key order, each as `escaped-key=escaped-value`, joined by `&`. -/
def encodeQuery (q : Values) : String :=
  String.intercalate "&"
    ((sortByKey q).flatMap fun kv =>
      kv.2.map fun v => queryEscape kv.1 ++ "=" ++ queryEscape v)

/-- The parameter-walking fold of `addQueryParams` in tools.go: for every
declared parameter whose location is `query` and whose name the input
supplies, `Set` the stringified value on the query map. -/
def buildQueryValues (q0 : Values) (params : List ParameterI) (input : APIToolInput) : Values :=
  params.foldl
    (fun q p =>
      if p.inLoc = "query" then
        match lookupInput input p.name with
        | some v => qSet q p.name (goFormat v)
        | none => q
      else q)
    q0

/-- Embedding of `addQueryParams` from tools.go: read the current query
map from the URL, set every supplied query parameter, and write back the
encoded (hence key-sorted) query string.  The Go function returns an
error value that is always nil. -/
def addQueryParams (u : URL) (op : OperationI) (input : APIToolInput) : URL :=
  { u with rawQuery := encodeQuery (buildQueryValues (parseQuery u.rawQuery) op.parameters input) }

example :
    (addQueryParams ⟨"http", "h", "/x", "", ""⟩
      ⟨"", "", [⟨"status", "query", "", false, "", "", none⟩,
                ⟨"limit", "query", "", false, "", "", none⟩], none⟩
      [("status", GoValue.str "active"), ("limit", GoValue.str "10")]).rawQuery
      = "limit=10&status=active" := by rfl

/-- Embedding of `hasRequestBody` from tools.go: the operation expects a
body iff `GetRequestBody()` is non-nil. -/
def hasRequestBody (op : OperationI) : Bool :=
  op.requestBody.isSome

/-- Embedding of `extractFieldsFromSchema` from tools.go, producing the
`target` map it fills: only a schema whose `GetType()` is exactly
`"object"` contributes fields; for each top-level property the input value
wins, else the property schema's declared default, else the key is
skipped. -/
def extractFieldsFromSchema (schema : SchemaI) (input : APIToolInput) : List (String × GoValue) :=
  if schema.getType = "object" then
    schema.getProperties.filterMap fun p =>
      match lookupInput input p.1 with
      | some v => some (p.1, v)
      | none =>
        match p.2.getDefault with
        | some d => some (p.1, d)
        | none => none
  else []

/-- Embedding of `buildRequestBody` from tools.go.  The Go function returns
the `json.Marshal` of the extracted field map (or nil bytes when there is
no body or no schema); the model returns the map itself, `none` standing
for the nil byte slice. -/
def buildRequestBody (op : OperationI) (input : APIToolInput) :
    Except String (Option (List (String × GoValue))) :=
  match op.requestBody with
  | none => Except.ok none
  | some rb =>
    match rb.jsonSchema with
    | Except.error e => Except.error e
    | Except.ok none => Except.ok none
    | Except.ok (some schema) => Except.ok (some (extractFieldsFromSchema schema input))

/-- Token characters of an HTTP header field name, per Go
`net/textproto.validHeaderFieldByte`: ASCII letters, digits, and
the characters with codes 33 35 36 37 38 39 42 43 45 46 94 95 96 124 126. -/
def isTokenChar (c : Char) : Bool :=
  c.isAlphanum ||
    [33, 35, 36, 37, 38, 39, 42, 43, 45, 46, 94, 95, 96, 124, 126].contains c.toNat

/-- Canonicalisation pass of `textproto.CanonicalMIMEHeaderKey`: upper-case
after a hyphen or at the start, lower-case elsewhere. -/
def canonAux : Bool → List Char → List Char
  | _, [] => []
  | upper, c :: cs =>
    (if upper then c.toUpper else c.toLower) :: canonAux (c = '-') cs

/-- Model of Go `textproto.CanonicalMIMEHeaderKey`, which every
`http.Header` operation applies to its key argument: a key containing a
non-token character is returned unchanged, otherwise it is canonicalised
hyphen-segment-wise. -/
def canonicalMIMEHeaderKey (s : String) : String :=
  if s.data.all isTokenChar then String.mk (canonAux true s.data) else s

example : canonicalMIMEHeaderKey "content-type" = "Content-Type" := by rfl
example : canonicalMIMEHeaderKey "x-API-key" = "X-Api-Key" := by rfl

/-- Go `http.Header`: the same `map[string][]string` shape as
`url.Values`. -/
abbrev Header := List (String × List String)

/-- Go `http.Header.Set`: canonicalise the key and replace its values by
the single given value. -/
def hSet (h : Header) (k v : String) : Header :=
  qSet h (canonicalMIMEHeaderKey k) v

/-- Go `http.Header.Add`: canonicalise the key and append the value. -/
def hAdd (h : Header) (k v : String) : Header :=
  qAdd h (canonicalMIMEHeaderKey k) v

/-- Go `http.Header.Get`: the first value stored under the canonicalised
key, or the empty string when there is none. -/
def hGet (h : Header) (k : String) : String :=
  match valuesLookup h (canonicalMIMEHeaderKey k) with
  | some (v :: _) => v
  | _ => ""

/-- Embedding of `setHeaders` from tools.go, acting on the request's
(initially empty) header map: `Content-Type: application/json` is `Set`
whenever the operation has a request body, every declared header-location
parameter the input supplies is `Set`, and finally, for each key of the
caller-supplied additional headers, `Get` of that key (its first value
only) is `Add`ed.  The Go function returns an error value that is always
nil. -/
def setHeadersBase (h0 : Header) (op : OperationI) (input : APIToolInput) : Header :=
  let h1 := if hasRequestBody op then hSet h0 "Content-Type" "application/json" else h0
  op.parameters.foldl
    (fun h p =>
      if p.inLoc = "header" then
        match lookupInput input p.name with
        | some v => hSet h p.name (goFormat v)
        | none => h
      else h)
    h1

/-- Final stage of `setHeaders`: the loop over the caller-supplied
additional headers, which `Add`s, for each key, the `Get` of that key —
that is, only the first stored value. -/
def setHeaders (h0 : Header) (op : OperationI) (input : APIToolInput)
    (additionalHeaders : Header) : Header :=
  additionalHeaders.foldl (fun h kv => hAdd h kv.1 (hGet additionalHeaders kv.1))
    (setHeadersBase h0 op input)

/-- An HTTP response as the engine observes it: status code, header map,
and the outcome of reading and JSON-decoding the body — `none` for a nil
body, `some none` when `json.Decode` fails (malformed or empty body),
`some (some v)` when it yields a value. -/
structure HTTPResponse where
  statusCode : Int
  headers : List (String × List String)
  body : Option (Option GoValue)

/-- `APIToolOutput` from tools.go.  The Go zero value of the struct is
status code 0, nil body, nil header map and empty error string. -/
structure APIToolOutput where
  statusCode : Int
  body : Option GoValue
  headers : List (String × String)
  error : String
deriving Repr, DecidableEq

/-- Embedding of `parseResponse` from tools.go, returning the output
together with the Go error result (which the code always leaves nil):
the status code is copied verbatim, only the first value of each response
header is kept, and the body is set only when JSON decoding succeeded —
a decode failure is silently ignored. -/
def parseResponse (resp : HTTPResponse) : APIToolOutput × Option String :=
  let hdrs := resp.headers.filterMap fun kv =>
    match kv.2 with
    | [] => none
    | v :: _ => some (kv.1, v)
  let body : Option GoValue :=
    match resp.body with
    | none => none
    | some r => r
  ({ statusCode := resp.statusCode, body := body, headers := hdrs, error := "" }, none)

/-- The `jsonschema.Schema` values this program builds, restricted to the
fields it writes: type, format, description, properties, items, required,
enum and default. -/
inductive JSONSchemaM where
  | mk (typeStr format description : String)
       (properties : List (String × JSONSchemaM))
       (items : Option JSONSchemaM)
       (required : List String)
       (enum : List GoValue)
       (dflt : Option GoValue)

/-- `EnrichedTool` from the mcp package: the compiled tool surface (name,
description, input schema) plus the capture the handler needs (base URL,
method, path template, operation). -/
structure EnrichedToolM where
  name : String
  description : String
  inputSchema : JSONSchemaM
  baseUrl : String
  method : String
  path : String
  operation : OperationI

/-- An outbound HTTP request as assembled by the handler. -/
structure HTTPRequest where
  method : String
  url : URL
  headers : Header
  body : Option (List (String × GoValue))

/-- Go `strings.ToUpper` on the ASCII method names used here. -/
def toUpperStr (s : String) : String :=
  String.mk (s.data.map Char.toUpper)

/-- A Go `APIToolOutput{Error: e}` literal: every other field keeps its
zero value. -/
def errorOutput (e : String) : APIToolOutput :=
  { statusCode := 0, body := none, headers := [], error := e }

/-- Embedding of the closure returned by `createAPIHandlerForTool` in
tools.go.  The blocking `http.Client.Do` call is passed in as `doRequest`;
its `Except.error` case is the transport failure of the Go `err`.
`http.NewRequestWithContext` cannot fail here (the URL was just parsed and
the method is an upper-cased spec key), so the request is built directly. -/
def createAPIHandlerForTool (tool : EnrichedToolM) (additionalHeaders : Header)
    (doRequest : HTTPRequest → Except String HTTPResponse) (input : APIToolInput) :
    APIToolOutput :=
  match buildURL tool.baseUrl tool.path input with
  | Except.error e => errorOutput ("Failed to build URL: " ++ e)
  | Except.ok u0 =>
    let u := addQueryParams u0 tool.operation input
    let bodyRes : Except String (Option (List (String × GoValue))) :=
      if hasRequestBody tool.operation then buildRequestBody tool.operation input
      else Except.ok none
    match bodyRes with
    | Except.error e => errorOutput ("Failed to build request body: " ++ e)
    | Except.ok body =>
      let req : HTTPRequest :=
        { method := toUpperStr tool.method, url := u,
          headers := setHeaders [] tool.operation input additionalHeaders,
          body := body }
      match doRequest req with
      | Except.error e => errorOutput ("HTTP request failed: " ++ e)
      | Except.ok resp =>
        match parseResponse resp with
        | (out, none) => out
        | (_, some e) => errorOutput ("Failed to parse response: " ++ e)

/-- Character cleaning of `generateToolName` in tools.go: every `/` becomes
`_`, every `\x7b` and `\x7d` is removed. -/
def cleanPathChars (l : List Char) : List Char :=
  (l.map fun c => if c = '/' then '_' else c).filter fun c => ¬(c = '{' ∨ c = '}')

/-- Go `strings.Trim(s, "_")`: drop leading and trailing underscores. -/
def trimUnderscores (l : List Char) : List Char :=
  ((l.dropWhile (· = '_')).reverse.dropWhile (· = '_')).reverse

/-- Embedding of `generateToolName` from tools.go: a non-empty operation id
wins; otherwise `method_cleanedPath`, collapsing to just the method when
the cleaned path is empty. -/
def generateToolName (method path operationID : String) : String :=
  if operationID ≠ "" then operationID
  else
    let cleanPath := trimUnderscores (cleanPathChars path.data)
    if cleanPath.isEmpty then method
    else method ++ "_" ++ String.mk cleanPath

example : generateToolName "post" "/users/\x7bid\x7d/posts/\x7bpostId\x7d" ""
    = "post_users_id_posts_postId" := by rfl
example : generateToolName "get" "/" "" = "get" := by rfl
example : generateToolName "get" "/x" "getX" = "getX" := by rfl

/-- Go map assignment `m[k] = v` on an association list. -/
def assocSet {α : Type} : List (String × α) → String → α → List (String × α)
  | [], k, v => [(k, v)]
  | (k2, v2) :: rest, k, v =>
    if k2 = k then (k2, v) :: rest else (k2, v2) :: assocSet rest k v

/-- Go map lookup on an association list. -/
def assocLookup {α : Type} : List (String × α) → String → Option α
  | [], _ => none
  | (k2, v) :: rest, k => if k2 = k then some v else assocLookup rest k

mutual
/-- Embedding of `convertSchemaToJSONSchema` from openapi.go: a
field-by-field copy of the interface schema into a `jsonschema.Schema`,
recursing into properties and items.  (Setting `Required` and `Enum` only
when non-empty, and marshalling the default, coincide with the plain copy
at this level of modelling.) -/
def convertSchemaToJSONSchema : SchemaI → JSONSchemaM
  | .mk t f d props items req enum dflt =>
    JSONSchemaM.mk t f d (convertSchemaProps props) (convertSchemaItems items) req enum dflt

/-- Property-map part of the `convertSchemaToJSONSchema` recursion. -/
def convertSchemaProps : List (String × SchemaI) → List (String × JSONSchemaM)
  | [] => []
  | (n, s) :: rest => (n, convertSchemaToJSONSchema s) :: convertSchemaProps rest

/-- Items part of the `convertSchemaToJSONSchema` recursion. -/
def convertSchemaItems : Option SchemaI → Option JSONSchemaM
  | none => none
  | some s => some (convertSchemaToJSONSchema s)
end

/-- Go capitalisation `strings.ToUpper(s[:1]) + s[1:]` used for the
fallback parameter description (the Go code would panic on an empty
location string; the model returns the empty string, a case no operation
data exercises). -/
def capitalizeFirst (s : String) : String :=
  match s.data with
  | [] => ""
  | c :: cs => String.mk (c.toUpper :: cs)

/-- Embedding of `convertParameterToJSONSchemaFromInterface` from
openapi.go: when the parameter carries a schema object, its conversion is
returned outright (the freshly built description is discarded, as in the
source); otherwise a schema is synthesised from the parameter's declared
type (defaulting to `string`) and format. -/
def convertParameterToJSONSchemaFromInterface (param : ParameterI) : JSONSchemaM :=
  match param.schema with
  | some ps => convertSchemaToJSONSchema ps
  | none =>
    let desc := if param.description = ""
      then capitalizeFirst param.inLoc ++ " parameter: " ++ param.name
      else param.description
    let t := if param.typeStr = "" then "string" else param.typeStr
    JSONSchemaM.mk t param.format desc [] none [] [] none

/-- Embedding of `generateInputSchemaFromInterface` from openapi.go: an
object schema whose properties are every non-body parameter's converted
schema keyed by name (required names collected in order), with the
resolved request-body schema's top-level properties merged in afterwards
(overwriting on name collision, as Go map assignment does) and its
required list appended.  A `GetJSONSchema` failure aborts with the
wrapping error of the source. -/
def generateInputSchemaFromInterface (op : OperationI) : Except String JSONSchemaM :=
  let s1 := op.parameters.foldl
    (fun (s : List (String × JSONSchemaM) × List String) p =>
      if p.inLoc = "body" then s
      else
        let ps := convertParameterToJSONSchemaFromInterface p
        (assocSet s.1 p.name ps, if p.required then s.2 ++ [p.name] else s.2))
    ([], [])
  match op.requestBody with
  | none => Except.ok (JSONSchemaM.mk "object" "" "" s1.1 none s1.2 [] none)
  | some rb =>
    match rb.jsonSchema with
    | Except.error e => Except.error ("failed to convert request body to schema: " ++ e)
    | Except.ok none => Except.ok (JSONSchemaM.mk "object" "" "" s1.1 none s1.2 [] none)
    | Except.ok (some bodySchema) =>
      match convertSchemaToJSONSchema bodySchema with
      | JSONSchemaM.mk _ _ _ bprops _ breq _ _ =>
        let props := bprops.foldl (fun m p => assocSet m p.1 p.2) s1.1
        Except.ok (JSONSchemaM.mk "object" "" "" props none (s1.2 ++ breq) [] none)

/-- The `openapi.PathItem` interface: its one method `GetOperations`
returns a method-name-to-operation map. -/
structure PathItemI where
  operations : List (String × OperationI)

/-- The `openapi.APISpec` interface as the record of the method results
the tool compiler reads. -/
structure APISpecI where
  version : String
  baseURL : String
  paths : List (String × PathItemI)

/-- Inner loop of `GetToolsFromSpec`: compile every operation of one path,
stopping at the first input-schema failure with the error that names its
method and path. -/
def compileOps (baseURL path : String) : List (String × OperationI) →
    Except String (List EnrichedToolM)
  | [] => Except.ok []
  | (method, op) :: rest =>
    let toolName := generateToolName method path op.operationID
    let description := if op.summary = "" then toUpperStr method ++ " " ++ path else op.summary
    match generateInputSchemaFromInterface op with
    | Except.error e =>
      Except.error ("failed to generate input schema for " ++ method ++ " " ++ path ++ ": " ++ e)
    | Except.ok inputSchema =>
      match compileOps baseURL path rest with
      | Except.error e => Except.error e
      | Except.ok tools =>
        Except.ok ({ name := toolName, description := description, inputSchema := inputSchema,
                     baseUrl := baseURL, method := method, path := path,
                     operation := op } :: tools)

/-- Outer loop of `GetToolsFromSpec` over the path map. -/
def compilePaths (baseURL : String) : List (String × PathItemI) →
    Except String (List EnrichedToolM)
  | [] => Except.ok []
  | (path, item) :: rest =>
    match compileOps baseURL path item.operations with
    | Except.error e => Except.error e
    | Except.ok tools =>
      match compilePaths baseURL rest with
      | Except.error e => Except.error e
      | Except.ok more => Except.ok (tools ++ more)

/-- Embedding of `GetToolsFromSpec` from tools.go: walk every path and
method and compile each present operation into an `EnrichedTool`; any
failure aborts the whole compilation.  (Go iterates its maps in an
unspecified order; the model fixes the association-list order, which
affects only which of several failures is reported first.) -/
def GetToolsFromSpec (spec : APISpecI) : Except String (List EnrichedToolM) :=
  compilePaths spec.baseURL spec.paths

mutual
/-- `openapi2.Schema` from the legacy dialect, restricted to the fields
pkg/openapi reads: type list, format, description, property map of schema
references, items reference, required list, enum and default. -/
inductive O2Schema where
  | mk (types : List String) (format description : String)
       (properties : List (String × O2SchemaRef))
       (items : Option O2SchemaRef)
       (required : List String)
       (enum : List GoValue)
       (dflt : Option GoValue)

/-- `openapi2.SchemaRef`: a reference string and/or a resolved value. -/
inductive O2SchemaRef where
  | mk (ref : String) (value : Option O2Schema)
end

mutual
/-- The `openapi.Schema` view of an `OpenAPI2Schema` wrapper, collecting
the results of its methods from openapi_2_spec.go: `GetType` is the first
entry of the type list or the empty string; `GetProperties` keeps only
properties whose reference carries a value; `GetItems` likewise; the
remaining fields are returned as stored. -/
def O2Schema.interp : O2Schema → SchemaI
  | .mk types f d props items req enum dflt =>
    SchemaI.mk (types.headD "") f d (o2InterpProps props) (o2InterpItems items) req enum dflt

/-- Property part of `O2Schema.interp` (`OpenAPI2Schema.GetProperties`). -/
def o2InterpProps : List (String × O2SchemaRef) → List (String × SchemaI)
  | [] => []
  | (_, O2SchemaRef.mk _ none) :: rest => o2InterpProps rest
  | (n, O2SchemaRef.mk _ (some v)) :: rest => (n, O2Schema.interp v) :: o2InterpProps rest

/-- Items part of `O2Schema.interp` (`OpenAPI2Schema.GetItems`). -/
def o2InterpItems : Option O2SchemaRef → Option SchemaI
  | none => none
  | some (O2SchemaRef.mk _ none) => none
  | some (O2SchemaRef.mk _ (some v)) => some (O2Schema.interp v)
end

/-- `openapi2.Parameter` restricted to the fields pkg/openapi reads. -/
structure O2Parameter where
  name : String
  inLoc : String
  description : String
  required : Bool
  types : List String
  format : String
  schema : Option O2SchemaRef

/-- The `openapi.Parameter` view of an `OpenAPI2Parameter` wrapper:
`GetType` falls back to `string` when no type is declared, `GetSchema`
yields the schema only when the reference carries a value. -/
def O2Parameter.interp (p : O2Parameter) : ParameterI :=
  { name := p.name, inLoc := p.inLoc, description := p.description,
    required := p.required,
    typeStr := p.types.headD "string", format := p.format,
    schema :=
      match p.schema with
      | some (O2SchemaRef.mk _ (some v)) => some (O2Schema.interp v)
      | _ => none }

/-- Go `strings.TrimPrefix(ref, "#/definitions/")`. -/
def trimRefPath (ref : String) : String :=
  let marker := "#/definitions/".data
  if marker.isPrefixOf ref.data then String.mk (ref.data.drop marker.length) else ref

/-- Embedding of `OpenAPI2RequestBody.GetJSONSchema` from
openapi_2_spec.go, as a function of the body parameter and the owning
document's definitions table: no schema on the parameter means no body
schema (nil, nil); a bare reference is resolved against the definitions
and a miss (or a hit without a value) is the hard error
`could not resolve schema reference`; otherwise the carried value is
returned. -/
def o2GetJSONSchema (param : O2Parameter) (defs : List (String × O2SchemaRef)) :
    Except String (Option SchemaI) :=
  match param.schema with
  | none => Except.ok none
  | some (O2SchemaRef.mk ref none) =>
    if ref = "" then Except.ok none
    else
      match assocLookup defs (trimRefPath ref) with
      | some (O2SchemaRef.mk _ (some v)) => Except.ok (some (O2Schema.interp v))
      | _ => Except.error ("could not resolve schema reference: " ++ ref)
  | some (O2SchemaRef.mk _ (some v)) => Except.ok (some (O2Schema.interp v))

/-- `openapi2.Operation` restricted to the fields pkg/openapi reads. -/
structure O2Operation where
  operationID : String
  summary : String
  parameters : List O2Parameter

/-- `openapi2.PathItem`: path-level parameters and the seven legacy-dialect
method slots. -/
structure O2PathItem where
  parameters : List O2Parameter
  get : Option O2Operation
  post : Option O2Operation
  put : Option O2Operation
  delete : Option O2Operation
  patch : Option O2Operation
  head : Option O2Operation
  options : Option O2Operation

/-- First parameter whose location is `body`, as both `GetRequestBody`
loops in openapi_2_spec.go scan for it. -/
def firstBodyParam : List O2Parameter → Option O2Parameter
  | [] => none
  | p :: rest => if p.inLoc = "body" then some p else firstBodyParam rest

/-- The `openapi.Operation` view of an `OpenAPI2OperationWithPath`
wrapper: `GetParameters` lists path-level parameters before
operation-level ones with no de-duplication; `GetRequestBody` synthesises
the request body from the first body-location parameter, operation level
first, path level second. -/
def o2OperationInterp (op : O2Operation) (item : O2PathItem)
    (defs : List (String × O2SchemaRef)) : OperationI :=
  { operationID := op.operationID, summary := op.summary,
    parameters := (item.parameters ++ op.parameters).map O2Parameter.interp,
    requestBody :=
      match firstBodyParam op.parameters with
      | some bp => some ⟨o2GetJSONSchema bp defs⟩
      | none =>
        match firstBodyParam item.parameters with
        | some bp => some ⟨o2GetJSONSchema bp defs⟩
        | none => none }

/-- `openapi2.T`, the legacy-dialect document root, restricted to the
fields pkg/openapi reads. -/
structure O2T where
  swagger : String
  host : String
  basePath : String
  schemes : List String
  paths : List (String × O2PathItem)
  definitions : List (String × O2SchemaRef)

/-- Embedding of `OpenAPI2Spec.GetBaseURL`: first declared scheme
(default `http`), host (default `localhost:8080`), base path appended. -/
def O2T.getBaseURL (s : O2T) : String :=
  let scheme := s.schemes.headD "http"
  let host := if s.host = "" then "localhost:8080" else s.host
  scheme ++ "://" ++ host ++ s.basePath

/-- Embedding of `OpenAPI2PathItem.GetOperations`: the seven legacy method
slots, present operations only.  (Go iterates the method map in an
unspecified order; the model fixes this listing order.) -/
def o2PathOperations (item : O2PathItem) (defs : List (String × O2SchemaRef)) :
    List (String × OperationI) :=
  ([("get", item.get), ("post", item.post), ("put", item.put),
    ("delete", item.delete), ("patch", item.patch), ("head", item.head),
    ("options", item.options)]).filterMap fun mo =>
    match mo.2 with
    | some op => some (mo.1, o2OperationInterp op item defs)
    | none => none

/-- The `openapi.APISpec` view of an `OpenAPI2Spec` wrapper. -/
def O2T.interp (s : O2T) : APISpecI :=
  { version := s.swagger, baseURL := s.getBaseURL,
    paths := s.paths.map fun pp => (pp.1, ⟨o2PathOperations pp.2 s.definitions⟩) }

/-- The modern-dialect document as `LoadSpec` hands it on (its contents
are not inspected by the loader beyond parse and validation outcomes). -/
structure O3T where
  tag : Nat

/-- Result of `LoadSpec`: a wrapped document of one dialect or the other. -/
inductive LoadedSpec where
  | openapi3 (s : O3T)
  | openapi2 (s : O2T)

/-- Outcome of the third loader attempt's call chain on the raw bytes:
`yaml.Unmarshal` may fail, then `json.Marshal` of the decoded value may
fail, then `json.Unmarshal` into `openapi2.T` may fail, else a document
is produced. -/
inductive YamlStepResult where
  | yamlErr
  | marshalErr
  | unmarshalErr
  | parsed (spec2 : O2T)

/-- The raw document bytes of `LoadSpec`, abstracted to the outcomes of
the foreign parser calls the loader makes on them: the modern-dialect
parse (`loader.LoadFromData`) and, when it parses, its structural
validation; the legacy-dialect JSON parse; and the YAML round-trip
chain. -/
structure RawSpecData where
  openapi3Parse : Option O3T
  openapi3Valid : Bool
  openapi2JSONParse : Option O2T
  yamlStep : YamlStepResult

/-- Third stage of `LoadSpec` (openapi.go): YAML-decode the raw bytes,
re-encode to JSON, re-parse as the legacy dialect, and accept only a
non-empty `swagger` marker; every failure is the uniform
`unsupported or invalid OpenAPI specification` error. -/
def loadSpecYamlStage (d : RawSpecData) : Except String LoadedSpec :=
  match d.yamlStep with
  | .yamlErr => Except.error "unsupported or invalid OpenAPI specification"
  | .marshalErr => Except.error "unsupported or invalid OpenAPI specification"
  | .unmarshalErr => Except.error "unsupported or invalid OpenAPI specification"
  | .parsed s2 =>
    if s2.swagger = "" then Except.error "unsupported or invalid OpenAPI specification"
    else Except.ok (LoadedSpec.openapi2 s2)

/-- Second stage of `LoadSpec`: the legacy dialect parsed directly from
JSON, accepted only when its `swagger` marker is non-empty; otherwise the
YAML stage runs. -/
def loadSpecJSON2Stage (d : RawSpecData) : Except String LoadedSpec :=
  match d.openapi2JSONParse with
  | some s2 =>
    if s2.swagger ≠ "" then Except.ok (LoadedSpec.openapi2 s2)
    else loadSpecYamlStage d
  | none => loadSpecYamlStage d

/-- Embedding of `LoadSpec` from openapi.go: modern dialect first, accepted
only when it both parses and validates; otherwise the legacy-JSON stage,
then the YAML stage. -/
def LoadSpec (d : RawSpecData) : Except String LoadedSpec :=
  match d.openapi3Parse with
  | some s => if d.openapi3Valid then Except.ok (LoadedSpec.openapi3 s) else loadSpecJSON2Stage d
  | none => loadSpecJSON2Stage d

theorem missing_eq_filter (toks : List PathTok) (input : APIToolInput) :
    (toks.filterMap fun t =>
      match t with
      | .param n => if (lookupInput input n).isSome then none else some n
      | .lit _ => none)
    = ((toks.filterMap fun t =>
        match t with
        | .param n => some n
        | .lit _ => none).filter fun n => (lookupInput input n).isNone) := by
  induction toks with
  | nil => rfl
  | cons t rest ih =>
    cases t with
    | lit c => simpa using ih
    | param n =>
      by_cases hn : (lookupInput input n).isSome
      · have hn2 : (lookupInput input n).isNone = false := by
          simp [Option.isNone, Option.isSome] at hn ⊢
          cases h : lookupInput input n <;> simp_all
        simp [List.filterMap_cons, List.filter_cons, hn, hn2, ih]
      · have hn2 : (lookupInput input n).isNone = true := by
          cases h : lookupInput input n <;> simp_all [Option.isSome]
        simp [List.filterMap_cons, List.filter_cons, hn, hn2, ih]

theorem substPath_missing (path : String) (input : APIToolInput) :
    (substPath path input).2
      = (placeholders path).filter fun n => (lookupInput input n).isNone := by
  unfold substPath placeholders
  exact missing_eq_filter _ _

/-- C1: if any path-template placeholder has no key in the input, `buildURL`
fails with a `missing required path parameters` error that lists every
missing placeholder name (in template order, not only the first), and the
tool handler then returns that error without ever consulting the
transport — no network I/O can have taken place. -/
theorem buildURL_missing_params_complete (tool : EnrichedToolM) (addH : Header)
    (input : APIToolInput)
    (h : ((placeholders tool.path).filter fun n => (lookupInput input n).isNone) ≠ []) :
    buildURL tool.baseUrl tool.path input
      = Except.error ("missing required path parameters: " ++
          goFormatStringSlice
            ((placeholders tool.path).filter fun n => (lookupInput input n).isNone))
    ∧ ∀ doRequest : HTTPRequest → Except String HTTPResponse,
        createAPIHandlerForTool tool addH doRequest input
          = errorOutput ("Failed to build URL: " ++
              ("missing required path parameters: " ++
                goFormatStringSlice
                  ((placeholders tool.path).filter fun n => (lookupInput input n).isNone))) := by
  have hm := substPath_missing tool.path input
  have hurl : buildURL tool.baseUrl tool.path input
      = Except.error ("missing required path parameters: " ++
          goFormatStringSlice
            ((placeholders tool.path).filter fun n => (lookupInput input n).isNone)) := by
    unfold buildURL
    simp only [hm]
    simp [h]
  refine ⟨hurl, fun doRequest => ?_⟩
  unfold createAPIHandlerForTool
  rw [hurl]

/-- Witness for C1 at a concrete template with two unresolved placeholders:
the error lists both names. -/
theorem buildURL_missing_params_complete_witness :
    buildURL "http://h" "/a/\x7bx\x7d/\x7by\x7d" []
      = Except.error "missing required path parameters: [x y]"
    ∧ createAPIHandlerForTool
        ⟨"t", "d", JSONSchemaM.mk "object" "" "" [] none [] [] none,
         "http://h", "get", "/a/\x7bx\x7d/\x7by\x7d", ⟨"", "", [], none⟩⟩ []
        (fun _ => Except.error "unused") []
      = errorOutput "Failed to build URL: missing required path parameters: [x y]" := by
  have h := buildURL_missing_params_complete
    ⟨"t", "d", JSONSchemaM.mk "object" "" "" [] none [] [] none,
     "http://h", "get", "/a/\x7bx\x7d/\x7by\x7d", ⟨"", "", [], none⟩⟩ []
    [] (by decide)
  exact ⟨h.1, h.2 _⟩

theorem parseResponse_fields (resp : HTTPResponse) :
    (parseResponse resp).2 = none
    ∧ (parseResponse resp).1.statusCode = resp.statusCode
    ∧ (parseResponse resp).1.error = ""
    ∧ (parseResponse resp).1.headers
        = (resp.headers.filterMap fun kv =>
            match kv.2 with
            | [] => none
            | v :: _ => some (kv.1, v))
    ∧ (parseResponse resp).1.body
        = (match resp.body with
           | none => none
           | some r => r) := by
  unfold parseResponse
  exact ⟨rfl, rfl, rfl, rfl, rfl⟩

/-- C3: response normalization never fails.  For every HTTP response —
including one whose body is nil or fails JSON decoding — `parseResponse`
returns a nil error; the output copies the status code verbatim, keeps the
first value of each header, reports no error text, and carries a body
exactly when decoding produced a value (a decode failure leaves the body
field absent rather than raising an error). -/
theorem parseResponse_total (resp : HTTPResponse) :
    (parseResponse resp).2 = none
    ∧ (parseResponse resp).1.statusCode = resp.statusCode
    ∧ (parseResponse resp).1.error = ""
    ∧ (parseResponse resp).1.headers
        = (resp.headers.filterMap fun kv =>
            match kv.2 with
            | [] => none
            | v :: _ => some (kv.1, v))
    ∧ (parseResponse resp).1.body
        = (match resp.body with
           | none => none
           | some r => r) :=
  parseResponse_fields resp

example :
    parseResponse ⟨200, [("Content-Type", ["application/json"])], some none⟩
      = (⟨200, none, [("Content-Type", "application/json")], ""⟩, none) := by rfl

theorem extract_lookup_notmem (props : List (String × SchemaI)) (input : APIToolInput)
    (n : String) (hn : n ∉ props.map Prod.fst) :
    assocLookup (props.filterMap fun p =>
      match lookupInput input p.1 with
      | some v => some (p.1, v)
      | none =>
        match p.2.getDefault with
        | some d => some (p.1, d)
        | none => none) n = none := by
  induction props with
  | nil => rfl
  | cons p rest ih =>
    have hne : p.1 ≠ n := by
      intro hEq
      exact hn (by simp [hEq])
    have hrest : n ∉ rest.map Prod.fst := by
      intro hmem
      exact hn (by simp [hmem])
    cases hv : lookupInput input p.1 with
    | some v =>
      simp [List.filterMap_cons, hv, assocLookup, hne, ih hrest]
    | none =>
      cases hd : p.2.getDefault with
      | some d => simp [List.filterMap_cons, hv, hd, assocLookup, hne, ih hrest]
      | none => simp [List.filterMap_cons, hv, hd, ih hrest]

theorem extract_lookup_mem (props : List (String × SchemaI)) (input : APIToolInput)
    (n : String) (ps : SchemaI)
    (hnd : (props.map Prod.fst).Nodup) (hmem : (n, ps) ∈ props) :
    assocLookup (props.filterMap fun p =>
      match lookupInput input p.1 with
      | some v => some (p.1, v)
      | none =>
        match p.2.getDefault with
        | some d => some (p.1, d)
        | none => none) n
    = (match lookupInput input n with
       | some v => some v
       | none => ps.getDefault) := by
  induction props with
  | nil => simp at hmem
  | cons p rest ih =>
    have hnd2 : (rest.map Prod.fst).Nodup := (List.nodup_cons.mp hnd).2
    have hhead : p.1 ∉ rest.map Prod.fst := (List.nodup_cons.mp hnd).1
    rcases List.mem_cons.mp hmem with hEq | hrest
    · subst hEq
      cases hv : lookupInput input n with
      | some v => simp [List.filterMap_cons, hv, assocLookup]
      | none =>
        cases hd : ps.getDefault with
        | some d => simp [List.filterMap_cons, hv, hd, assocLookup]
        | none =>
          simp only [List.filterMap_cons, hv, hd]
          rw [extract_lookup_notmem rest input n hhead]
    · have hne : p.1 ≠ n := by
        intro hEq
        apply hhead
        rw [hEq]
        exact List.mem_map_of_mem Prod.fst hrest
      cases hv : lookupInput input p.1 with
      | some v => simp [List.filterMap_cons, hv, assocLookup, hne, ih hnd2 hrest]
      | none =>
        cases hd : p.2.getDefault with
        | some d => simp [List.filterMap_cons, hv, hd, assocLookup, hne, ih hnd2 hrest]
        | none => simp [List.filterMap_cons, hv, hd, ih hnd2 hrest]

/-- C2: for an operation whose request body resolves to an object schema
(with distinct property names, as Go map keys are), the built body maps
each top-level property to the input value when the input supplies that
key, else to the schema's declared default when present; otherwise the key
is absent from the body map entirely — and so is every key that is not a
schema property (nothing is emitted as null).  An input value therefore
always overrides a declared default. -/
theorem buildRequestBody_defaults (op : OperationI) (rb : RequestBodyI) (schema : SchemaI)
    (input : APIToolInput)
    (hrb : op.requestBody = some rb)
    (hs : rb.jsonSchema = Except.ok (some schema))
    (hobj : schema.getType = "object")
    (hnd : (schema.getProperties.map Prod.fst).Nodup) :
    buildRequestBody op input = Except.ok (some (extractFieldsFromSchema schema input))
    ∧ (∀ n ps, (n, ps) ∈ schema.getProperties →
        assocLookup (extractFieldsFromSchema schema input) n
          = (match lookupInput input n with
             | some v => some v
             | none => ps.getDefault))
    ∧ (∀ n, n ∉ schema.getProperties.map Prod.fst →
        assocLookup (extractFieldsFromSchema schema input) n = none) := by
  refine ⟨?_, ?_, ?_⟩
  · simp [buildRequestBody, hrb, hs]
  · intro n ps hmem
    unfold extractFieldsFromSchema
    rw [if_pos hobj]
    exact extract_lookup_mem _ input n ps hnd hmem
  · intro n hn
    unfold extractFieldsFromSchema
    rw [if_pos hobj]
    exact extract_lookup_notmem _ input n hn

/-- Witness for C2 on the POST-users scenario of the spec: `active` has a
declared default `true` and is absent from the input, `name` and `email`
are supplied; the body carries the default and the supplied values, and an
input value for `active` would override the default. -/
theorem buildRequestBody_defaults_witness :
    buildRequestBody
      ⟨"createUser", "",
       [],
       some ⟨Except.ok (some (SchemaI.mk "object" "" ""
          [("name", SchemaI.mk "string" "" "" [] none [] [] none),
           ("email", SchemaI.mk "string" "" "" [] none [] [] none),
           ("active", SchemaI.mk "boolean" "" "" [] none [] [] (some (GoValue.bool true)))]
          none [] [] none))⟩⟩
      [("name", GoValue.str "Alice"), ("email", GoValue.str "a@x.com")]
      = Except.ok (some [("name", GoValue.str "Alice"), ("email", GoValue.str "a@x.com"),
                         ("active", GoValue.bool true)])
    ∧ assocLookup [("name", GoValue.str "Alice"), ("email", GoValue.str "a@x.com"),
                   ("active", GoValue.bool true)] "active" = some (GoValue.bool true) := by
  have h := buildRequestBody_defaults
    ⟨"createUser", "",
     [],
     some ⟨Except.ok (some (SchemaI.mk "object" "" ""
        [("name", SchemaI.mk "string" "" "" [] none [] [] none),
         ("email", SchemaI.mk "string" "" "" [] none [] [] none),
         ("active", SchemaI.mk "boolean" "" "" [] none [] [] (some (GoValue.bool true)))]
        none [] [] none))⟩⟩
    ⟨Except.ok (some (SchemaI.mk "object" "" ""
        [("name", SchemaI.mk "string" "" "" [] none [] [] none),
         ("email", SchemaI.mk "string" "" "" [] none [] [] none),
         ("active", SchemaI.mk "boolean" "" "" [] none [] [] (some (GoValue.bool true)))]
        none [] [] none))⟩
    (SchemaI.mk "object" "" ""
        [("name", SchemaI.mk "string" "" "" [] none [] [] none),
         ("email", SchemaI.mk "string" "" "" [] none [] [] none),
         ("active", SchemaI.mk "boolean" "" "" [] none [] [] (some (GoValue.bool true)))]
        none [] [] none)
    [("name", GoValue.str "Alice"), ("email", GoValue.str "a@x.com")]
    rfl rfl rfl (by decide)
  exact ⟨h.1, h.2.1 "active"
    (SchemaI.mk "boolean" "" "" [] none [] [] (some (GoValue.bool true)))
    (List.mem_cons_of_mem _ (List.mem_cons_of_mem _ (List.mem_cons_self _ _)))⟩

/-- C10 (implicit behavior): request-body field extraction happens only
when the resolved body schema's `GetType()` is exactly `"object"`.  For
any other type — including a legacy-dialect schema that declares
properties but no type, whose `GetType()` is the empty string — no fields
are extracted, so the request body is the empty object and both input
values and declared defaults for its properties are dropped. -/
theorem extractFields_requires_object_type (schema : SchemaI) (input : APIToolInput)
    (op : OperationI) (rb : RequestBodyI)
    (hrb : op.requestBody = some rb)
    (hs : rb.jsonSchema = Except.ok (some schema))
    (hne : schema.getType ≠ "object") :
    extractFieldsFromSchema schema input = []
    ∧ buildRequestBody op input = Except.ok (some [])
    ∧ ∀ (f d : String) props items req enum dflt,
        (O2Schema.interp (O2Schema.mk [] f d props items req enum dflt)).getType = "" := by
  have hext : extractFieldsFromSchema schema input = [] := by
    unfold extractFieldsFromSchema
    rw [if_neg hne]
  refine ⟨hext, ?_, ?_⟩
  · simp [buildRequestBody, hrb, hs, hext]
  · intro f d props items req enum dflt
    rfl

/-- Witness for C10: a legacy schema that declares a property with a
default but omits the type drops both the supplied input value and the
default — the built body is empty. -/
theorem extractFields_requires_object_type_witness :
    extractFieldsFromSchema
      (O2Schema.interp (O2Schema.mk [] "" ""
        [("name", O2SchemaRef.mk ""
            (some (O2Schema.mk ["string"] "" "" [] none [] [] (some (GoValue.str "bob")))))]
        none [] [] none))
      [("name", GoValue.str "x")] = []
    ∧ buildRequestBody
        ⟨"op", "", [],
         some ⟨Except.ok (some (O2Schema.interp (O2Schema.mk [] "" ""
            [("name", O2SchemaRef.mk ""
                (some (O2Schema.mk ["string"] "" "" [] none [] [] (some (GoValue.str "bob")))))]
            none [] [] none)))⟩⟩
        [("name", GoValue.str "x")] = Except.ok (some []) := by
  have h := extractFields_requires_object_type
    (O2Schema.interp (O2Schema.mk [] "" ""
      [("name", O2SchemaRef.mk ""
          (some (O2Schema.mk ["string"] "" "" [] none [] [] (some (GoValue.str "bob")))))]
      none [] [] none))
    [("name", GoValue.str "x")]
    ⟨"op", "", [],
     some ⟨Except.ok (some (O2Schema.interp (O2Schema.mk [] "" ""
        [("name", O2SchemaRef.mk ""
            (some (O2Schema.mk ["string"] "" "" [] none [] [] (some (GoValue.str "bob")))))]
        none [] [] none)))⟩⟩
    ⟨Except.ok (some (O2Schema.interp (O2Schema.mk [] "" ""
        [("name", O2SchemaRef.mk ""
            (some (O2Schema.mk ["string"] "" "" [] none [] [] (some (GoValue.str "bob")))))]
        none [] [] none)))⟩
    rfl rfl (by decide)
  exact ⟨h.1, h.2.1⟩

/-- C4: once the request is dispatched, any HTTP response — whatever its
status class — makes the invocation succeed: the handler returns the
normalized output with that status code and an empty error.  A transport
failure of the dispatch step instead surfaces as the distinct
`HTTP request failed` error output. -/
theorem handler_http_vs_transport (tool : EnrichedToolM) (addH : Header)
    (input : APIToolInput) (u : URL) (b : Option (List (String × GoValue)))
    (resp : HTTPResponse) (m : String)
    (hurl : buildURL tool.baseUrl tool.path input = Except.ok u)
    (hbody : (if hasRequestBody tool.operation then buildRequestBody tool.operation input
              else Except.ok none) = Except.ok b) :
    createAPIHandlerForTool tool addH (fun _ => Except.ok resp) input
      = (parseResponse resp).1
    ∧ (createAPIHandlerForTool tool addH (fun _ => Except.ok resp) input).statusCode
        = resp.statusCode
    ∧ (createAPIHandlerForTool tool addH (fun _ => Except.ok resp) input).error = ""
    ∧ createAPIHandlerForTool tool addH (fun _ => Except.error m) input
        = errorOutput ("HTTP request failed: " ++ m) := by
  have e1 : createAPIHandlerForTool tool addH (fun _ => Except.ok resp) input
      = (parseResponse resp).1 := by
    unfold createAPIHandlerForTool
    rw [hurl]
    simp [hbody, parseResponse]
  have e2 : createAPIHandlerForTool tool addH (fun _ => Except.error m) input
      = errorOutput ("HTTP request failed: " ++ m) := by
    unfold createAPIHandlerForTool
    rw [hurl]
    simp [hbody]
  refine ⟨e1, ?_, ?_, e2⟩
  · rw [e1]
    exact ((parseResponse_fields resp).2.1)
  · rw [e1]
    exact ((parseResponse_fields resp).2.2.1)

/-- Witness for C4: against a concrete tool, a 404 response yields a
successful output carrying status 404 with empty error text, while a
refused connection yields the transport error output. -/
theorem handler_http_vs_transport_witness :
    createAPIHandlerForTool
        ⟨"t", "d", JSONSchemaM.mk "object" "" "" [] none [] [] none,
         "http://h", "get", "/x", ⟨"", "", [], none⟩⟩ []
        (fun _ => Except.ok ⟨404, [], some none⟩) []
      = (parseResponse ⟨404, [], some none⟩).1
    ∧ (createAPIHandlerForTool
        ⟨"t", "d", JSONSchemaM.mk "object" "" "" [] none [] [] none,
         "http://h", "get", "/x", ⟨"", "", [], none⟩⟩ []
        (fun _ => Except.ok ⟨404, [], some none⟩) []).statusCode = 404
    ∧ (createAPIHandlerForTool
        ⟨"t", "d", JSONSchemaM.mk "object" "" "" [] none [] [] none,
         "http://h", "get", "/x", ⟨"", "", [], none⟩⟩ []
        (fun _ => Except.ok ⟨404, [], some none⟩) []).error = ""
    ∧ createAPIHandlerForTool
        ⟨"t", "d", JSONSchemaM.mk "object" "" "" [] none [] [] none,
         "http://h", "get", "/x", ⟨"", "", [], none⟩⟩ []
        (fun _ => Except.error "connection refused") []
      = errorOutput "HTTP request failed: connection refused" := by
  exact handler_http_vs_transport
    ⟨"t", "d", JSONSchemaM.mk "object" "" "" [] none [] [] none,
     "http://h", "get", "/x", ⟨"", "", [], none⟩⟩ [] []
    ⟨"http", "h", "/x", "", ""⟩ none ⟨404, [], some none⟩ "connection refused"
    rfl rfl

theorem valuesLookup_qSet_self (q : Values) (k v : String) :
    valuesLookup (qSet q k v) k = some [v] := by
  induction q with
  | nil => simp [qSet, valuesLookup]
  | cons kv rest ih =>
    by_cases h : kv.1 = k
    · simp [qSet, h, valuesLookup]
    · simp [qSet, h, valuesLookup, ih]

theorem valuesLookup_qSet_other (q : Values) (k k2 v : String) (h : k2 ≠ k) :
    valuesLookup (qSet q k2 v) k = valuesLookup q k := by
  induction q with
  | nil => simp [qSet, valuesLookup, h]
  | cons kv rest ih =>
    by_cases h2 : kv.1 = k2
    · simp [qSet, h2, valuesLookup, h]
    · simp [qSet, h2, valuesLookup, ih]

theorem buildQueryValues_preserve (params : List ParameterI) (input : APIToolInput)
    (name : String) (v : GoValue) (hv : lookupInput input name = some v) :
    ∀ q : Values, valuesLookup q name = some [goFormat v] →
      valuesLookup (buildQueryValues q params input) name = some [goFormat v] := by
  induction params with
  | nil => intro q hq; simpa [buildQueryValues] using hq
  | cons p rest ih =>
    intro q hq
    simp only [buildQueryValues, List.foldl_cons]
    by_cases hloc : p.inLoc = "query"
    · cases hw : lookupInput input p.name with
      | none =>
        simp only [hloc, if_pos, hw]
        exact ih _ hq
      | some w =>
        simp only [hloc, if_pos, hw]
        by_cases hn : p.name = name
        · subst hn
          have : w = v := by
            rw [hv] at hw
            injection hw with h
            exact h.symm
          subst this
          exact ih _ (valuesLookup_qSet_self q p.name (goFormat w))
        · exact ih _ (by rw [valuesLookup_qSet_other q name p.name (goFormat w) hn]; exact hq)
    · simp only [hloc, if_neg, ite_false]
      exact ih _ hq

theorem buildQueryValues_set (params : List ParameterI) (input : APIToolInput)
    (p : ParameterI) (v : GoValue)
    (hp : p ∈ params) (hq : p.inLoc = "query") (hv : lookupInput input p.name = some v) :
    ∀ q0 : Values, valuesLookup (buildQueryValues q0 params input) p.name = some [goFormat v] := by
  induction params with
  | nil => cases hp
  | cons ph rest ih =>
    intro q0
    rcases List.mem_cons.mp hp with hEq | hrest
    · subst hEq
      simp only [buildQueryValues, List.foldl_cons, hq, if_pos, hv]
      exact buildQueryValues_preserve rest input p.name v hv _
        (valuesLookup_qSet_self q0 p.name (goFormat v))
    · simp only [buildQueryValues, List.foldl_cons]
      exact ih hrest _

theorem charListLe_total : ∀ a b : List Char, charListLe a b = true ∨ charListLe b a = true := by
  intro a
  induction a with
  | nil => intro b; left; cases b <;> rfl
  | cons x xs ih =>
    intro b
    cases b with
    | nil => right; rfl
    | cons y ys =>
      by_cases hxy : x.toNat = y.toNat
      · rcases ih ys with h | h
        · left; simp [charListLe, hxy, h]
        · right; simp [charListLe, hxy.symm, h]
      · by_cases hlt : x.toNat < y.toNat
        · left; simp [charListLe, hxy, hlt]
        · right
          have hne : y.toNat ≠ x.toNat := fun hEq => hxy hEq.symm
          have : y.toNat < x.toNat := by omega
          simp [charListLe, hne, this]

theorem charListLe_trans : ∀ a b c : List Char,
    charListLe a b = true → charListLe b c = true → charListLe a c = true := by
  intro a
  induction a with
  | nil => intro b c _ _; cases c <;> rfl
  | cons x xs ih =>
    intro b c h1 h2
    cases b with
    | nil => simp [charListLe] at h1
    | cons y ys =>
      cases c with
      | nil => simp [charListLe] at h2
      | cons z zs =>
        by_cases hxy : x.toNat = y.toNat
        · by_cases hyz : y.toNat = z.toNat
          · have hxz : x.toNat = z.toNat := hxy.trans hyz
            simp only [charListLe, hxy, if_pos] at h1
            simp only [charListLe, hyz, if_pos] at h2
            simp only [charListLe, hxz, if_pos]
            exact ih ys zs h1 h2
          · simp only [charListLe, hyz, if_neg, ite_false] at h2
            have hlt : y.toNat < z.toNat := by simpa using h2
            have hxz : x.toNat ≠ z.toNat := by omega
            have : x.toNat < z.toNat := by omega
            simp [charListLe, hxz, this]
        · simp only [charListLe, hxy, if_neg, ite_false] at h1
          have hlt : x.toNat < y.toNat := by simpa using h1
          by_cases hyz : y.toNat = z.toNat
          · have hxz : x.toNat ≠ z.toNat := by omega
            have : x.toNat < z.toNat := by omega
            simp [charListLe, hxz, this]
          · simp only [charListLe, hyz, if_neg, ite_false] at h2
            have hlt2 : y.toNat < z.toNat := by simpa using h2
            have hxz : x.toNat ≠ z.toNat := by omega
            have : x.toNat < z.toNat := by omega
            simp [charListLe, hxz, this]

theorem sortByKey_sorted (q : Values) :
    List.Pairwise (fun a b : String × List String => stringLeB a.1 b.1 = true) (sortByKey q) := by
  haveI : IsTotal (String × List String) (fun a b => stringLeB a.1 b.1 = true) :=
    ⟨fun a b => charListLe_total a.1.data b.1.data⟩
  haveI : IsTrans (String × List String) (fun a b => stringLeB a.1 b.1 = true) :=
    ⟨fun a b c => charListLe_trans a.1.data b.1.data c.1.data⟩
  exact List.sorted_insertionSort _ q

/-- C5: every declared query-location parameter whose name the input
supplies has its stringified value `Set` — the final value list for that
name is exactly the one value, not an appended list — and the encoded
query string written back to the URL is emitted in lexicographic key
order, whatever the declaration or insertion order was. -/
theorem addQueryParams_set_and_sorted (u : URL) (op : OperationI) (input : APIToolInput)
    (p : ParameterI) (v : GoValue)
    (hp : p ∈ op.parameters) (hq : p.inLoc = "query")
    (hv : lookupInput input p.name = some v) :
    valuesLookup (buildQueryValues (parseQuery u.rawQuery) op.parameters input) p.name
      = some [goFormat v]
    ∧ (addQueryParams u op input).rawQuery
        = encodeQuery (buildQueryValues (parseQuery u.rawQuery) op.parameters input)
    ∧ List.Pairwise (fun a b : String × List String => stringLeB a.1 b.1 = true)
        (sortByKey (buildQueryValues (parseQuery u.rawQuery) op.parameters input)) := by
  exact ⟨buildQueryValues_set op.parameters input p v hp hq hv _,
         rfl,
         sortByKey_sorted _⟩

/-- Witness for C5 on the spec's example: parameters declared in the order
`status`, `limit` and supplied in that insertion order still encode as
`limit=10&status=active`, and each value list is the single set value. -/
theorem addQueryParams_set_and_sorted_witness :
    valuesLookup
      (buildQueryValues (parseQuery "")
        [⟨"status", "query", "", false, "", "", none⟩,
         ⟨"limit", "query", "", false, "", "", none⟩]
        [("status", GoValue.str "active"), ("limit", GoValue.str "10")]) "status"
      = some ["active"]
    ∧ (addQueryParams ⟨"http", "h", "/x", "", ""⟩
        ⟨"", "", [⟨"status", "query", "", false, "", "", none⟩,
                  ⟨"limit", "query", "", false, "", "", none⟩], none⟩
        [("status", GoValue.str "active"), ("limit", GoValue.str "10")]).rawQuery
      = "limit=10&status=active" := by
  have h := addQueryParams_set_and_sorted ⟨"http", "h", "/x", "", ""⟩
    ⟨"", "", [⟨"status", "query", "", false, "", "", none⟩,
              ⟨"limit", "query", "", false, "", "", none⟩], none⟩
    [("status", GoValue.str "active"), ("limit", GoValue.str "10")]
    ⟨"status", "query", "", false, "", "", none⟩ (GoValue.str "active")
    (List.mem_cons_self _ _) rfl rfl
  exact ⟨h.1, by rfl⟩

/-- C6: the loader tries the three dialect interpretations in strict
order.  (1) A modern-dialect document is accepted only when it both parses
and validates.  (2) When the modern attempt does not fully succeed —
including the case where it parses but fails validation — a legacy-dialect
JSON parse with a non-empty `swagger` marker is accepted.  (3) Otherwise
the YAML re-encoding attempt decides: a parsed legacy document with a
non-empty marker is accepted, and in every remaining case the loader fails
with the `unsupported or invalid OpenAPI specification` error. -/
theorem LoadSpec_strict_order (d : RawSpecData) :
    (∀ s, d.openapi3Parse = some s → d.openapi3Valid = true →
       LoadSpec d = Except.ok (LoadedSpec.openapi3 s))
    ∧ ((d.openapi3Parse = none ∨ d.openapi3Valid = false) →
       ∀ s2, d.openapi2JSONParse = some s2 → s2.swagger ≠ "" →
         LoadSpec d = Except.ok (LoadedSpec.openapi2 s2))
    ∧ ((d.openapi3Parse = none ∨ d.openapi3Valid = false) →
       (∀ s2, d.openapi2JSONParse = some s2 → s2.swagger = "") →
       ∀ s2y, d.yamlStep = YamlStepResult.parsed s2y → s2y.swagger ≠ "" →
         LoadSpec d = Except.ok (LoadedSpec.openapi2 s2y))
    ∧ ((d.openapi3Parse = none ∨ d.openapi3Valid = false) →
       (∀ s2, d.openapi2JSONParse = some s2 → s2.swagger = "") →
       (∀ s2y, d.yamlStep = YamlStepResult.parsed s2y → s2y.swagger = "") →
         LoadSpec d = Except.error "unsupported or invalid OpenAPI specification") := by
  have hyaml_ok : (∀ s2, d.openapi2JSONParse = some s2 → s2.swagger = "") →
      ∀ s2y, d.yamlStep = YamlStepResult.parsed s2y → s2y.swagger ≠ "" →
        loadSpecJSON2Stage d = Except.ok (LoadedSpec.openapi2 s2y) := by
    intro hj s2y hy hsw
    have hstage : loadSpecYamlStage d = Except.ok (LoadedSpec.openapi2 s2y) := by
      unfold loadSpecYamlStage
      rw [hy]
      simp [hsw]
    unfold loadSpecJSON2Stage
    cases hp : d.openapi2JSONParse with
    | none => exact hstage
    | some s2 => simp [hj s2 hp, hstage]
  have hyaml_err : (∀ s2, d.openapi2JSONParse = some s2 → s2.swagger = "") →
      (∀ s2y, d.yamlStep = YamlStepResult.parsed s2y → s2y.swagger = "") →
        loadSpecJSON2Stage d = Except.error "unsupported or invalid OpenAPI specification" := by
    intro hj hy
    have hstage : loadSpecYamlStage d
        = Except.error "unsupported or invalid OpenAPI specification" := by
      unfold loadSpecYamlStage
      cases hys : d.yamlStep with
      | yamlErr => rfl
      | marshalErr => rfl
      | unmarshalErr => rfl
      | parsed s2y => simp [hy s2y hys]
    unfold loadSpecJSON2Stage
    cases hp : d.openapi2JSONParse with
    | none => exact hstage
    | some s2 => simp [hj s2 hp, hstage]
  have hfall : (d.openapi3Parse = none ∨ d.openapi3Valid = false) →
      LoadSpec d = loadSpecJSON2Stage d := by
    intro h3
    unfold LoadSpec
    cases hp : d.openapi3Parse with
    | none => rfl
    | some s =>
      rcases h3 with h | h
      · rw [hp] at h; cases h
      · simp [h]
  refine ⟨?_, ?_, ?_, ?_⟩
  · intro s hp hvalid
    unfold LoadSpec
    rw [hp]
    simp [hvalid]
  · intro h3 s2 hp hsw
    rw [hfall h3]
    unfold loadSpecJSON2Stage
    rw [hp]
    simp [hsw]
  · intro h3 hj s2y hy hsw
    rw [hfall h3]
    exact hyaml_ok hj s2y hy hsw
  · intro h3 hj hy
    rw [hfall h3]
    exact hyaml_err hj hy

/-- Witness for C6 at the delicate point of the ordering: a document that
parses as the modern dialect but fails validation is not accepted as
modern; it falls through and is accepted by the legacy-JSON attempt. -/
theorem LoadSpec_strict_order_witness :
    LoadSpec ⟨some ⟨0⟩, false, some ⟨"2.0", "", "", [], [], []⟩, YamlStepResult.yamlErr⟩
      = Except.ok (LoadedSpec.openapi2 ⟨"2.0", "", "", [], [], []⟩) := by
  exact (LoadSpec_strict_order
    ⟨some ⟨0⟩, false, some ⟨"2.0", "", "", [], [], []⟩, YamlStepResult.yamlErr⟩).2.1
    (Or.inr rfl) ⟨"2.0", "", "", [], [], []⟩ rfl (by decide)

theorem compileOps_ok_length (baseURL path : String) :
    ∀ (ops : List (String × OperationI)) (tools : List EnrichedToolM),
      compileOps baseURL path ops = Except.ok tools → tools.length = ops.length := by
  intro ops
  induction ops with
  | nil =>
    intro tools h
    simp [compileOps] at h
    simp [← h]
  | cons mo rest ih =>
    intro tools h
    obtain ⟨m, op⟩ := mo
    unfold compileOps at h
    cases hg : generateInputSchemaFromInterface op with
    | error e => rw [hg] at h; cases h
    | ok sch =>
      rw [hg] at h
      cases hr : compileOps baseURL path rest with
      | error e => rw [hr] at h; cases h
      | ok ts =>
        rw [hr] at h
        injection h with h2
        rw [← h2]
        simp [ih ts hr]

theorem compileOps_err (baseURL path : String) :
    ∀ ops : List (String × OperationI),
      (∃ mo ∈ ops, ∃ e, generateInputSchemaFromInterface mo.2 = Except.error e) →
      ∃ m2 op2 e2, (m2, op2) ∈ ops
        ∧ generateInputSchemaFromInterface op2 = Except.error e2
        ∧ compileOps baseURL path ops
            = Except.error ("failed to generate input schema for " ++ m2 ++ " " ++ path
                ++ ": " ++ e2) := by
  intro ops
  induction ops with
  | nil => rintro ⟨mo, hmem, _⟩; cases hmem
  | cons mo rest ih =>
    rintro ⟨mo2, hmem, e, he⟩
    obtain ⟨m, op⟩ := mo
    cases hg : generateInputSchemaFromInterface op with
    | error e0 =>
      refine ⟨m, op, e0, List.mem_cons_self _ _, hg, ?_⟩
      unfold compileOps
      rw [hg]
    | ok sch =>
      have hrest : ∃ mo ∈ rest, ∃ e, generateInputSchemaFromInterface mo.2 = Except.error e := by
        rcases List.mem_cons.mp hmem with hEq | hr
        · exfalso
          rw [hEq] at he
          rw [hg] at he
          cases he
        · exact ⟨mo2, hr, e, he⟩
      obtain ⟨m2, op2, e2, hmem2, he2, hres⟩ := ih hrest
      refine ⟨m2, op2, e2, List.mem_cons_of_mem _ hmem2, he2, ?_⟩
      unfold compileOps
      rw [hg, hres]

theorem compilePaths_ok_length (baseURL : String) :
    ∀ (paths : List (String × PathItemI)) (tools : List EnrichedToolM),
      compilePaths baseURL paths = Except.ok tools →
      tools.length = (paths.map fun pp => pp.2.operations.length).sum := by
  intro paths
  induction paths with
  | nil =>
    intro tools h
    simp [compilePaths] at h
    simp [← h]
  | cons pp rest ih =>
    intro tools h
    obtain ⟨path, item⟩ := pp
    unfold compilePaths at h
    cases ho : compileOps baseURL path item.operations with
    | error e => rw [ho] at h; cases h
    | ok ts =>
      rw [ho] at h
      cases hr : compilePaths baseURL rest with
      | error e => rw [hr] at h; cases h
      | ok more =>
        rw [hr] at h
        injection h with h2
        rw [← h2]
        simp [compileOps_ok_length baseURL path item.operations ts ho, ih more hr]

theorem compileOps_ok (baseURL path : String) :
    ∀ ops : List (String × OperationI),
      (∀ mo ∈ ops, ∃ sch, generateInputSchemaFromInterface mo.2 = Except.ok sch) →
      ∃ ts, compileOps baseURL path ops = Except.ok ts := by
  intro ops
  induction ops with
  | nil => intro _; exact ⟨[], rfl⟩
  | cons mo rest ih =>
    intro hok
    obtain ⟨sch, hsch⟩ := hok mo (List.mem_cons_self _ _)
    obtain ⟨ts2, hts2⟩ := ih fun mo3 hm3 => hok mo3 (List.mem_cons_of_mem _ hm3)
    obtain ⟨m0, op0⟩ := mo
    refine ⟨({ name := generateToolName m0 path op0.operationID,
               description := if op0.summary = "" then toUpperStr m0 ++ " " ++ path
                              else op0.summary,
               inputSchema := sch, baseUrl := baseURL, method := m0, path := path,
               operation := op0 } : EnrichedToolM) :: ts2, ?_⟩
    unfold compileOps
    rw [hsch, hts2]

theorem compilePaths_err (baseURL : String) :
    ∀ paths : List (String × PathItemI),
      (∃ pi ∈ paths, ∃ mo ∈ pi.2.operations, ∃ e,
          generateInputSchemaFromInterface mo.2 = Except.error e) →
      ∃ path2 item2 m2 op2 e2, (path2, item2) ∈ paths ∧ (m2, op2) ∈ item2.operations
        ∧ generateInputSchemaFromInterface op2 = Except.error e2
        ∧ compilePaths baseURL paths
            = Except.error ("failed to generate input schema for " ++ m2 ++ " " ++ path2
                ++ ": " ++ e2) := by
  intro paths
  induction paths with
  | nil => rintro ⟨pi, hmem, _⟩; cases hmem
  | cons pp rest ih =>
    rintro ⟨pi, hmem, mo, hmo, e, he⟩
    obtain ⟨path, item⟩ := pp
    by_cases hfail : ∃ mo2 ∈ item.operations, ∃ e2,
        generateInputSchemaFromInterface mo2.2 = Except.error e2
    · obtain ⟨m2, op2, e2, hmem2, he2, hres⟩ := compileOps_err baseURL path item.operations hfail
      refine ⟨path, item, m2, op2, e2, List.mem_cons_self _ _, hmem2, he2, ?_⟩
      unfold compilePaths
      rw [hres]
    · have hok : ∀ mo2 ∈ item.operations, ∃ sch,
          generateInputSchemaFromInterface mo2.2 = Except.ok sch := by
        intro mo2 hmem2
        cases hg : generateInputSchemaFromInterface mo2.2 with
        | error e2 => exact absurd ⟨mo2, hmem2, e2, hg⟩ hfail
        | ok sch => exact ⟨sch, rfl⟩
      have hrest : ∃ pi ∈ rest, ∃ mo ∈ pi.2.operations, ∃ e,
          generateInputSchemaFromInterface mo.2 = Except.error e := by
        rcases List.mem_cons.mp hmem with hEq | hr
        · exfalso
          rw [hEq] at hmo
          obtain ⟨sch, hsch⟩ := hok mo hmo
          rw [hsch] at he
          cases he
        · exact ⟨pi, hr, mo, hmo, e, he⟩
      obtain ⟨path2, item2, m2, op2, e2, hp2, hm2, he2, hres⟩ := ih hrest
      refine ⟨path2, item2, m2, op2, e2, List.mem_cons_of_mem _ hp2, hm2, he2, ?_⟩
      unfold compilePaths
      obtain ⟨ts, hts⟩ := compileOps_ok baseURL path item.operations hok
      rw [hts, hres]

/-- C7: compilation is all-or-nothing.  If any operation's input schema
generation fails (in particular when its request-body schema fails to
resolve), `GetToolsFromSpec` returns an error naming a failing method and
path and produces no tool list; when it does succeed, it returns exactly
one tool per operation, so nothing is silently dropped.  And in the legacy
dialect a `$ref` absent from the definitions table (or present without a
value) is the hard `could not resolve schema reference` error, not a
silent empty schema. -/
theorem GetToolsFromSpec_all_or_nothing (spec : APISpecI) :
    ((∃ pi ∈ spec.paths, ∃ mo ∈ pi.2.operations, ∃ e,
        generateInputSchemaFromInterface mo.2 = Except.error e) →
      ∃ path2 item2 m2 op2 e2, (path2, item2) ∈ spec.paths ∧ (m2, op2) ∈ item2.operations
        ∧ generateInputSchemaFromInterface op2 = Except.error e2
        ∧ GetToolsFromSpec spec
            = Except.error ("failed to generate input schema for " ++ m2 ++ " " ++ path2
                ++ ": " ++ e2))
    ∧ (∀ tools, GetToolsFromSpec spec = Except.ok tools →
        tools.length = (spec.paths.map fun pp => pp.2.operations.length).sum)
    ∧ (∀ (param : O2Parameter) (defs : List (String × O2SchemaRef)) (ref : String),
        param.schema = some (O2SchemaRef.mk ref none) → ref ≠ "" →
        (∀ r2 v, assocLookup defs (trimRefPath ref) ≠ some (O2SchemaRef.mk r2 (some v))) →
        o2GetJSONSchema param defs
          = Except.error ("could not resolve schema reference: " ++ ref)) := by
  refine ⟨?_, ?_, ?_⟩
  · intro h
    obtain ⟨path2, item2, m2, op2, e2, hp2, hm2, he2, hres⟩ :=
      compilePaths_err spec.baseURL spec.paths h
    exact ⟨path2, item2, m2, op2, e2, hp2, hm2, he2, hres⟩
  · intro tools h
    exact compilePaths_ok_length spec.baseURL spec.paths tools h
  · intro param defs ref hschema href hmiss
    unfold o2GetJSONSchema
    rw [hschema]
    cases hl : assocLookup defs (trimRefPath ref) with
    | none => simp only [if_neg href, hl]
    | some r =>
      obtain ⟨r2, value⟩ := r
      cases value with
      | none => simp only [if_neg href, hl]
      | some v => exact absurd hl (hmiss r2 v)

/-- Witness for C7: a legacy document whose only operation carries a body
parameter with a dangling `$ref` compiles to the identifying error and no
tool list. -/
theorem GetToolsFromSpec_all_or_nothing_witness :
    ∃ path2 item2 m2 op2 e2,
      (path2, item2) ∈ (O2T.interp (O2T.mk "2.0" "h" "" []
          [("/users", O2PathItem.mk []
             none
             (some (O2Operation.mk "createUser" ""
               [O2Parameter.mk "body" "body" "" true [] ""
                 (some (O2SchemaRef.mk "#/definitions/Missing" none))]))
             none none none none none)]
          [])).paths
      ∧ (m2, op2) ∈ item2.operations
      ∧ generateInputSchemaFromInterface op2 = Except.error e2
      ∧ GetToolsFromSpec (O2T.interp (O2T.mk "2.0" "h" "" []
          [("/users", O2PathItem.mk []
             none
             (some (O2Operation.mk "createUser" ""
               [O2Parameter.mk "body" "body" "" true [] ""
                 (some (O2SchemaRef.mk "#/definitions/Missing" none))]))
             none none none none none)]
          []))
          = Except.error ("failed to generate input schema for " ++ m2 ++ " " ++ path2
              ++ ": " ++ e2) := by
  exact (GetToolsFromSpec_all_or_nothing (O2T.interp (O2T.mk "2.0" "h" "" []
          [("/users", O2PathItem.mk []
             none
             (some (O2Operation.mk "createUser" ""
               [O2Parameter.mk "body" "body" "" true [] ""
                 (some (O2SchemaRef.mk "#/definitions/Missing" none))]))
             none none none none none)]
          []))).1
    ⟨_, List.mem_cons_self _ _, _, List.mem_cons_self _ _, _, rfl⟩

example :
    GetToolsFromSpec (O2T.interp (O2T.mk "2.0" "h" "" []
        [("/users", O2PathItem.mk []
           none
           (some (O2Operation.mk "createUser" ""
             [O2Parameter.mk "body" "body" "" true [] ""
               (some (O2SchemaRef.mk "#/definitions/Missing" none))]))
           none none none none none)]
        []))
      = Except.error ("failed to generate input schema for post /users: " ++
          "failed to convert request body to schema: " ++
          "could not resolve schema reference: #/definitions/Missing") := by rfl

theorem valuesLookup_qAdd_self (q : Values) (k v : String) :
    valuesLookup (qAdd q k v) k = some ((valuesLookup q k).getD [] ++ [v]) := by
  induction q with
  | nil => simp [qAdd, valuesLookup]
  | cons kv rest ih =>
    by_cases h : kv.1 = k
    · simp [qAdd, h, valuesLookup]
    · simp [qAdd, h, valuesLookup, ih]

theorem valuesLookup_qAdd_other (q : Values) (k k2 v : String) (h : k2 ≠ k) :
    valuesLookup (qAdd q k2 v) k = valuesLookup q k := by
  induction q with
  | nil => simp [qAdd, valuesLookup, h]
  | cons kv rest ih =>
    by_cases h2 : kv.1 = k2
    · simp [qAdd, h2, valuesLookup, h]
    · simp [qAdd, h2, valuesLookup, ih]

theorem valuesLookup_of_nodup_mem (l : Values) (k : String) (vs : List String)
    (hnodup : (l.map Prod.fst).Nodup) (hmem : (k, vs) ∈ l) :
    valuesLookup l k = some vs := by
  induction l with
  | nil => cases hmem
  | cons kv rest ih =>
    rcases List.mem_cons.mp hmem with hEq | hr
    · rw [← hEq]
      simp [valuesLookup]
    · have hne : kv.1 ≠ k := by
        intro hk
        exact (List.nodup_cons.mp hnodup).1 (hk ▸ List.mem_map_of_mem Prod.fst hr)
      simp [valuesLookup, hne, ih (List.nodup_cons.mp hnodup).2 hr]

theorem addFold_preserve (addH : Header) (k : String) :
    ∀ (l : Header) (h : Header),
      (∀ kv ∈ l, canonicalMIMEHeaderKey kv.1 = kv.1) →
      k ∉ l.map Prod.fst →
      valuesLookup (l.foldl (fun acc kv => hAdd acc kv.1 (hGet addH kv.1)) h) k
        = valuesLookup h k := by
  intro l
  induction l with
  | nil => intro h _ _; rfl
  | cons kv rest ih =>
    intro h hcanon hk
    have hne : kv.1 ≠ k := by
      intro hEq
      exact hk (by simp [hEq])
    have hstep : valuesLookup (hAdd h kv.1 (hGet addH kv.1)) k = valuesLookup h k := by
      unfold hAdd
      rw [hcanon kv (List.mem_cons_self _ _)]
      exact valuesLookup_qAdd_other h k kv.1 _ hne
    simp only [List.foldl_cons]
    rw [ih _ (fun kv2 hm => hcanon kv2 (List.mem_cons_of_mem _ hm)) (by
      intro hm
      exact hk (by simp [hm]))]
    exact hstep

theorem addFold_lookup (addH : Header) (k v : String)
    (hcanonk : canonicalMIMEHeaderKey k = k)
    (hget : hGet addH k = v) :
    ∀ (l : Header) (h : Header),
      (∀ kv ∈ l, canonicalMIMEHeaderKey kv.1 = kv.1) →
      (l.map Prod.fst).Nodup → k ∈ l.map Prod.fst →
      valuesLookup (l.foldl (fun acc kv => hAdd acc kv.1 (hGet addH kv.1)) h) k
        = some ((valuesLookup h k).getD [] ++ [v]) := by
  intro l
  induction l with
  | nil => intro h _ _ hk; cases hk
  | cons kv rest ih =>
    intro h hcanon hnodup hk
    by_cases hEq : kv.1 = k
    · have hrest : k ∉ rest.map Prod.fst := by
        intro hm
        exact (List.nodup_cons.mp hnodup).1 (hEq ▸ hm)
      simp only [List.foldl_cons]
      rw [addFold_preserve addH k rest _
        (fun kv2 hm => hcanon kv2 (List.mem_cons_of_mem _ hm)) hrest]
      unfold hAdd
      rw [hEq, hcanonk, hget]
      exact valuesLookup_qAdd_self h k v
    · have hkrest : k ∈ rest.map Prod.fst := by
        have hk2 : k ∈ kv.1 :: rest.map Prod.fst := by
          rw [List.map_cons] at hk
          exact hk
        rcases List.mem_cons.mp hk2 with h1 | h2
        · exact absurd h1.symm hEq
        · exact h2
      have hstep : valuesLookup (hAdd h kv.1 (hGet addH kv.1)) k = valuesLookup h k := by
        unfold hAdd
        rw [hcanon kv (List.mem_cons_self _ _)]
        exact valuesLookup_qAdd_other h k kv.1 _ hEq
      simp only [List.foldl_cons]
      rw [ih _ (fun kv2 hm => hcanon kv2 (List.mem_cons_of_mem _ hm))
        (List.nodup_cons.mp hnodup).2 hkrest]
      rw [hstep]

/-- C8 (amended): the caller-supplied additional headers are applied last,
with `Add` — they append to whatever the automatic `Content-Type` and the
declared header parameters already set for the same name, so repeated
header names can result — but for each configured name only the *first*
configured value is added to the outbound request; any further values
stored under that name are dropped (the loop adds `Get` of the key, which
returns only the first value). -/
theorem setHeaders_additional_first_value_only (h0 : Header) (op : OperationI)
    (input : APIToolInput) (addH : Header) (k v : String) (vs : List String)
    (hcanon : ∀ kv ∈ addH, canonicalMIMEHeaderKey kv.1 = kv.1)
    (hnodup : (addH.map Prod.fst).Nodup)
    (hmem : (k, v :: vs) ∈ addH) :
    valuesLookup (setHeaders h0 op input addH) k
      = some ((valuesLookup (setHeadersBase h0 op input) k).getD [] ++ [v]) := by
  have hcanonk : canonicalMIMEHeaderKey k = k := hcanon (k, v :: vs) hmem
  have hget : hGet addH k = v := by
    unfold hGet
    rw [hcanonk, valuesLookup_of_nodup_mem addH k (v :: vs) hnodup hmem]
  unfold setHeaders
  exact addFold_lookup addH k v hcanonk hget addH (setHeadersBase h0 op input) hcanon hnodup
    (List.mem_map_of_mem Prod.fst hmem)

/-- Witness for the amended C8: a configured `Authorization` header whose
value list holds `t1` and `t2` results in exactly `t1` being added on top
of the (empty) base headers. -/
theorem setHeaders_additional_first_value_only_witness :
    valuesLookup
      (setHeaders [] ⟨"", "", [], none⟩ [] [("Authorization", ["t1", "t2"])])
      "Authorization" = some ["t1"] := by
  have h := setHeaders_additional_first_value_only [] ⟨"", "", [], none⟩ []
    [("Authorization", ["t1", "t2"])] "Authorization" "t1" ["t2"]
    (by intro kv hm; simp at hm; rw [hm]; rfl)
    (by decide)
    (List.mem_cons_self _ _)
  simpa using h

/-- Counterexample to C8 as stated: a configured header name carrying the
two values `a`, `b` ends up with only `a` on the outbound request — the
second value is dropped, not added. -/
theorem setHeaders_multi_value_counterexample :
    setHeaders [] ⟨"", "", [], none⟩ [] [("X-Multi", ["a", "b"])]
      = [("X-Multi", ["a"])]
    ∧ ([("X-Multi", ["a"])] : Header) ≠ [("X-Multi", ["a", "b"])] := by
  exact ⟨rfl, by decide⟩

/-- The path segments of a URL path, as Go `strings.Split(path, "/")`
produces them when a re-parsed URL is inspected. -/
def pathSegments (p : String) : List String :=
  (splitOnCharAux '/' p.data []).map String.mk

example : pathSegments "/users/123" = ["", "users", "123"] := by rfl
example : pathSegments "/users/a/b" = ["", "users", "a", "b"] := by rfl

/-- One segment of a well-formed path template: either literal text or a
`\x7bname\x7d` placeholder occupying the whole segment. -/
inductive SegSpec where
  | lit (s : String)
  | hole (name : String)

/-- The template text of one segment. -/
def renderSegSpec : SegSpec → List Char
  | .lit s => s.data
  | .hole n => '{' :: n.data ++ ['}']

/-- A path template written as one `/`-prefixed chunk per segment, e.g.
`/users/\x7bid\x7d` for `[lit "users", hole "id"]`. -/
def templateOfSegs (segs : List SegSpec) : String :=
  String.mk (segs.flatMap fun sg => '/' :: renderSegSpec sg)

/-- The text a segment contributes after substitution: a literal stays, a
placeholder becomes the formatted input value (or stays untouched when the
input lacks the key, a case the round-trip theorem excludes). -/
def segValue (input : APIToolInput) : SegSpec → String
  | .lit s => s
  | .hole n =>
    match lookupInput input n with
    | some v => goFormat v
    | none => String.mk ('{' :: n.data ++ ['}'])

/-- Conditions under which one template segment round-trips: a literal
must contain no brace-opening, separator, or URL metacharacter; a
placeholder needs a non-empty name without a closing brace and an input
value whose formatted text contains no separator or URL metacharacter. -/
def SegOK (input : APIToolInput) : SegSpec → Prop
  | .lit s => ∀ c ∈ s.data, c ≠ '{' ∧ c ≠ '/' ∧ c ≠ '?' ∧ c ≠ '#' ∧ c ≠ '%'
  | .hole n => n.data ≠ [] ∧ (∀ c ∈ n.data, c ≠ '}') ∧
      ∃ v, lookupInput input n = some v
        ∧ ∀ c ∈ (goFormat v).data, c ≠ '/' ∧ c ≠ '?' ∧ c ≠ '#' ∧ c ≠ '%'

/-- The tokens the placeholder scan produces for one well-formed
segment. -/
def segToks : SegSpec → List PathTok
  | .lit s => s.data.map PathTok.lit
  | .hole n => [PathTok.param n]

theorem scanTok_slash (l : List Char) :
    scanTok ('/' :: l) none = PathTok.lit '/' :: scanTok l none := by
  simp [scanTok]

theorem scanTok_append_lits (s : List Char) (rest : List Char) (hs : ∀ c ∈ s, c ≠ '{') :
    scanTok (s ++ rest) none = s.map PathTok.lit ++ scanTok rest none := by
  induction s with
  | nil => rfl
  | cons c cs ih =>
    have hc : c ≠ '{' := hs c (List.mem_cons_self _ _)
    simp only [List.cons_append, scanTok, if_neg hc, List.map_cons, List.append_eq]
    rw [ih fun c2 hm => hs c2 (List.mem_cons_of_mem _ hm)]

theorem scanTok_inside (m : List Char) :
    ∀ (rest acc : List Char), (∀ c ∈ m, c ≠ '}') → (acc ≠ [] ∨ m ≠ []) →
    scanTok (m ++ '}' :: rest) (some acc)
      = PathTok.param (String.mk (acc.reverse ++ m)) :: scanTok rest none := by
  induction m with
  | nil =>
    intro rest acc _ hne
    have hacc : acc ≠ [] := by
      rcases hne with h | h
      · exact h
      · exact absurd rfl h
    cases acc with
    | nil => exact absurd rfl hacc
    | cons a as => simp [scanTok]
  | cons c cs ih =>
    intro rest acc hm hne
    have hc : c ≠ '}' := hm c (List.mem_cons_self _ _)
    simp only [List.cons_append, scanTok, if_neg hc, List.append_eq]
    rw [ih rest (c :: acc) (fun c2 hm2 => hm c2 (List.mem_cons_of_mem _ hm2))
      (Or.inl (by simp))]
    simp

theorem scanTok_hole (n : String) (rest : List Char)
    (hn : n.data ≠ []) (h2 : ∀ c ∈ n.data, c ≠ '}') :
    scanTok ('{' :: n.data ++ '}' :: rest) none = PathTok.param n :: scanTok rest none := by
  have h3 : scanTok ('{' :: (n.data ++ '}' :: rest)) none
      = scanTok (n.data ++ '}' :: rest) (some []) := by
    simp [scanTok]
  rw [List.cons_append, h3, scanTok_inside n.data rest [] h2 (Or.inr hn)]
  simp

theorem regexScan_template (segs : List SegSpec) (input : APIToolInput)
    (hgood : ∀ sg ∈ segs, SegOK input sg) :
    regexScan (templateOfSegs segs).data
      = segs.flatMap fun sg => PathTok.lit '/' :: segToks sg := by
  unfold regexScan templateOfSegs
  show scanTok (segs.flatMap fun sg => '/' :: renderSegSpec sg) none = _
  induction segs with
  | nil => rfl
  | cons sg rest ih =>
    have hsg := hgood sg (List.mem_cons_self _ _)
    have hrest := fun sg2 hm => hgood sg2 (List.mem_cons_of_mem _ hm)
    simp only [List.flatMap_cons, List.cons_append]
    cases sg with
    | lit s =>
      have hs : ∀ c ∈ s.data, c ≠ '{' := fun c hm => (hsg c hm).1
      rw [show renderSegSpec (SegSpec.lit s) = s.data from rfl]
      rw [scanTok_slash, scanTok_append_lits s.data _ hs, ih hrest]
      simp [segToks]
    | hole n =>
      obtain ⟨hne, hnb, _⟩ := hsg
      rw [show renderSegSpec (SegSpec.hole n) = '{' :: n.data ++ ['}'] from rfl]
      rw [scanTok_slash]
      have hshape : ('{' :: n.data ++ ['}']) ++ (rest.flatMap fun sg => '/' :: renderSegSpec sg)
          = '{' :: n.data ++ '}' :: (rest.flatMap fun sg => '/' :: renderSegSpec sg) := by
        simp
      rw [hshape, scanTok_hole n _ hne hnb, ih hrest]
      simp [segToks]

theorem flatMap_lit_chars (input : APIToolInput) (s : List Char) :
    (s.map PathTok.lit).flatMap (renderTok input) = s := by
  induction s with
  | nil => rfl
  | cons c cs ih => simp [renderTok, ih]

theorem renderToks_template (segs : List SegSpec) (input : APIToolInput)
    (hgood : ∀ sg ∈ segs, SegOK input sg) :
    (segs.flatMap fun sg => PathTok.lit '/' :: segToks sg).flatMap (renderTok input)
      = segs.flatMap fun sg => '/' :: (segValue input sg).data := by
  induction segs with
  | nil => rfl
  | cons sg rest ih =>
    have hsg := hgood sg (List.mem_cons_self _ _)
    have hrest := fun sg2 hm => hgood sg2 (List.mem_cons_of_mem _ hm)
    simp only [List.flatMap_cons, List.flatMap_append, ih hrest]
    cases sg with
    | lit s =>
      simp [segToks, renderTok, segValue, flatMap_lit_chars]
    | hole n =>
      obtain ⟨_, _, v, hv, _⟩ := hsg
      simp [segToks, renderTok, segValue, hv]

theorem missingToks_template (segs : List SegSpec) (input : APIToolInput)
    (hgood : ∀ sg ∈ segs, SegOK input sg) :
    ((segs.flatMap fun sg => PathTok.lit '/' :: segToks sg).filterMap fun t =>
      match t with
      | .param n => if (lookupInput input n).isSome then none else some n
      | .lit _ => none) = [] := by
  induction segs with
  | nil => rfl
  | cons sg rest ih =>
    have hsg := hgood sg (List.mem_cons_self _ _)
    have hrest := fun sg2 hm => hgood sg2 (List.mem_cons_of_mem _ hm)
    simp only [List.flatMap_cons, List.filterMap_append, List.filterMap_cons, ih hrest]
    cases sg with
    | lit s =>
      simp [segToks]
    | hole n =>
      obtain ⟨_, _, v, hv, _⟩ := hsg
      simp [segToks, hv]

theorem substPath_template (segs : List SegSpec) (input : APIToolInput)
    (hgood : ∀ sg ∈ segs, SegOK input sg) :
    substPath (templateOfSegs segs) input
      = (String.mk (segs.flatMap fun sg => '/' :: (segValue input sg).data), []) := by
  unfold substPath
  simp only [regexScan_template segs input hgood, renderToks_template segs input hgood,
    missingToks_template segs input hgood]

theorem splitAtFirst_not_mem (l : List Char) (c : Char) (h : c ∉ l) :
    splitAtFirst l c = (l, none) := by
  induction l with
  | nil => rfl
  | cons x xs ih =>
    have hx : x ≠ c := fun hEq => h (hEq ▸ List.mem_cons_self _ _)
    simp [splitAtFirst, hx, ih fun hm => h (List.mem_cons_of_mem _ hm)]

theorem splitAtFirst_append_sep (l1 l2 : List Char) (c : Char) (h : c ∉ l1) :
    splitAtFirst (l1 ++ c :: l2) c = (l1, some l2) := by
  induction l1 with
  | nil => simp [splitAtFirst]
  | cons x xs ih =>
    have hx : x ≠ c := fun hEq => h (hEq ▸ List.mem_cons_self _ _)
    simp [splitAtFirst, hx, ih fun hm => h (List.mem_cons_of_mem _ hm)]

theorem splitScheme_append (sch rest : List Char) (h : ':' ∉ sch) :
    splitScheme (sch ++ ':' :: '/' :: '/' :: rest) = some (sch, rest) := by
  induction sch with
  | nil => rfl
  | cons c cs ih =>
    have hc : c ≠ ':' := fun hEq => h (hEq ▸ List.mem_cons_self _ _)
    rw [splitScheme.eq_def]
    split
    · simp_all
    · rename_i heq
      rw [List.cons_append] at heq
      injection heq with h1 _
      exact absurd h1 hc
    · rename_i c2 cs2 heq
      rw [List.cons_append] at heq
      injection heq with h1 h2
      subst h1
      subst h2
      rw [ih fun hm => h (List.mem_cons_of_mem _ hm)]

theorem percentDecode_id (l : List Char) (h : '%' ∉ l) :
    percentDecode l = some l := by
  induction l with
  | nil => rfl
  | cons c cs ih =>
    have hc : c ≠ '%' := fun hEq => h (hEq ▸ List.mem_cons_self _ _)
    rw [percentDecode.eq_def]
    split
    · simp_all
    · rename_i heq
      injection heq with h1 _
      exact absurd h1 hc
    · rename_i c2 cs2 heq
      injection heq with h1 h2
      subst h1
      subst h2
      rw [ih fun hm => h (List.mem_cons_of_mem _ hm)]

theorem splitOnCharAux_skip (c : Char) (m : List Char) :
    ∀ (rest acc : List Char), c ∉ m →
      splitOnCharAux c (m ++ rest) acc = splitOnCharAux c rest (m.reverse ++ acc) := by
  induction m with
  | nil => intro rest acc _; rfl
  | cons x xs ih =>
    intro rest acc h
    have hx : x ≠ c := fun hEq => h (hEq ▸ List.mem_cons_self _ _)
    simp only [List.cons_append, splitOnCharAux, if_neg hx, List.append_eq]
    rw [ih rest (x :: acc) fun hm => h (List.mem_cons_of_mem _ hm)]
    simp

theorem splitOnCharAux_sep (c : Char) (rest acc : List Char) :
    splitOnCharAux c (c :: rest) acc = acc.reverse :: splitOnCharAux c rest [] := by
  simp [splitOnCharAux]

theorem splitOnCharAux_chunks (c : Char) (chunks : List (List Char)) :
    (∀ ch ∈ chunks, c ∉ ch) →
    ∀ acc, splitOnCharAux c (chunks.flatMap fun ch => c :: ch) acc
      = acc.reverse :: chunks := by
  induction chunks with
  | nil => intro _ acc; rfl
  | cons ch rest ih =>
    intro h acc
    rw [List.flatMap_cons, List.cons_append, splitOnCharAux_sep]
    rw [splitOnCharAux_skip c ch _ [] (h ch (List.mem_cons_self _ _))]
    rw [List.append_nil]
    rw [ih (fun ch2 hm => h ch2 (List.mem_cons_of_mem _ hm)) ch.reverse]
    simp

theorem pathSegments_template (segs : List SegSpec) (input : APIToolInput)
    (hno : ∀ sg ∈ segs, '/' ∉ (segValue input sg).data) :
    pathSegments (String.mk (segs.flatMap fun sg => '/' :: (segValue input sg).data))
      = "" :: segs.map (segValue input) := by
  unfold pathSegments
  have hmap : segs.flatMap (fun sg => '/' :: (segValue input sg).data)
      = (segs.map fun sg => (segValue input sg).data).flatMap fun ch => '/' :: ch := by
    induction segs with
    | nil => rfl
    | cons sg rest ih2 => simp_all
  show ((splitOnCharAux '/' (segs.flatMap fun sg => '/' :: (segValue input sg).data) []).map
      String.mk) = _
  rw [hmap, splitOnCharAux_chunks '/' _ (by
    intro ch hm
    rw [List.mem_map] at hm
    obtain ⟨sg, hsg, hEq⟩ := hm
    rw [← hEq]
    exact hno sg hsg) []]
  simp [Function.comp]

theorem urlParse_wellformed (scheme host : String) (flat : List Char)
    (hscheme : ∀ c ∈ scheme.data, c ≠ ':' ∧ c ≠ '?' ∧ c ≠ '#')
    (hhostne : host.data ≠ [])
    (hhost : ∀ c ∈ host.data, c ≠ '/' ∧ c ≠ '?' ∧ c ≠ '#')
    (hflat : ∀ c ∈ flat, c ≠ '?' ∧ c ≠ '#' ∧ c ≠ '%')
    (hshape : flat = [] ∨ ∃ tail, flat = '/' :: tail) :
    urlParse ((scheme ++ "://" ++ host) ++ String.mk flat)
      = Except.ok ⟨scheme, host, String.mk flat, "", ""⟩ := by
  have hdata : ((scheme ++ "://" ++ host) ++ String.mk flat).data
      = scheme.data ++ ':' :: '/' :: '/' :: (host.data ++ flat) := by
    simp [String.data_append]
  have hmem5 : ∀ c, c ∈ scheme.data ++ ':' :: '/' :: '/' :: (host.data ++ flat) →
      c ∈ scheme.data ∨ c = ':' ∨ c = '/' ∨ c ∈ host.data ∨ c ∈ flat := by
    intro c hm
    rcases List.mem_append.mp hm with h1 | h2
    · exact Or.inl h1
    · rcases List.mem_cons.mp h2 with h | h2
      · exact Or.inr (Or.inl h)
      · rcases List.mem_cons.mp h2 with h | h2
        · exact Or.inr (Or.inr (Or.inl h))
        · rcases List.mem_cons.mp h2 with h | h2
          · exact Or.inr (Or.inr (Or.inl h))
          · rcases List.mem_append.mp h2 with h | h
            · exact Or.inr (Or.inr (Or.inr (Or.inl h)))
            · exact Or.inr (Or.inr (Or.inr (Or.inr h)))
  have hnohash : '#' ∉ scheme.data ++ ':' :: '/' :: '/' :: (host.data ++ flat) := by
    intro hm
    rcases hmem5 '#' hm with h | h | h | h | h
    · exact (hscheme _ h).2.2 rfl
    · exact absurd h (by decide)
    · exact absurd h (by decide)
    · exact (hhost _ h).2.2 rfl
    · exact (hflat _ h).2.1 rfl
  have hnoq : '?' ∉ scheme.data ++ ':' :: '/' :: '/' :: (host.data ++ flat) := by
    intro hm
    rcases hmem5 '?' hm with h | h | h | h | h
    · exact (hscheme _ h).2.1 rfl
    · exact absurd h (by decide)
    · exact absurd h (by decide)
    · exact (hhost _ h).2.1 rfl
    · exact (hflat _ h).1 rfl
  have hnocolon : ':' ∉ scheme.data := fun hm => (hscheme _ hm).1 rfl
  have hnoslash : '/' ∉ host.data := fun hm => (hhost _ hm).1 rfl
  have hnopct : '%' ∉ flat := fun hm => (hflat _ hm).2.2 rfl
  unfold urlParse
  simp only [hdata]
  rw [splitAtFirst_not_mem _ '#' hnohash]
  simp only []
  rw [splitAtFirst_not_mem _ '?' hnoq]
  simp only []
  rw [splitScheme_append scheme.data _ hnocolon]
  rcases hshape with hnil | ⟨tail, htail⟩
  · subst hnil
    rw [List.append_nil]
    simp [splitAtFirst_not_mem _ '/' hnoslash, percentDecode]
  · subst htail
    simp [splitAtFirst_append_sep host.data tail '/' hnoslash, percentDecode_id _ hnopct]

/-- C9 (amended): for a path template of literal and whole-segment
placeholder segments over a `scheme://host` base, and an input supplying
every placeholder with a value whose formatted text contains no `/`, `?`,
`#` or `%`, `buildURL` succeeds and re-parsing the resulting URL yields
exactly the substituted input values in the corresponding path segments.
The unrestricted claim — arbitrary input values — fails: a value
containing `/` changes the segment structure (see the counterexample). -/
theorem buildURL_roundtrip (scheme host : String) (segs : List SegSpec) (input : APIToolInput)
    (hscheme : ∀ c ∈ scheme.data, c ≠ ':' ∧ c ≠ '?' ∧ c ≠ '#')
    (hhostne : host.data ≠ [])
    (hhost : ∀ c ∈ host.data, c ≠ '/' ∧ c ≠ '?' ∧ c ≠ '#')
    (hsegs : ∀ sg ∈ segs, SegOK input sg) :
    buildURL (scheme ++ "://" ++ host) (templateOfSegs segs) input
      = Except.ok ⟨scheme, host,
          String.mk (segs.flatMap fun sg => '/' :: (segValue input sg).data), "", ""⟩
    ∧ pathSegments (String.mk (segs.flatMap fun sg => '/' :: (segValue input sg).data))
        = "" :: segs.map (segValue input) := by
  have hvals : ∀ sg ∈ segs, ∀ c ∈ (segValue input sg).data,
      c ≠ '/' ∧ c ≠ '?' ∧ c ≠ '#' ∧ c ≠ '%' := by
    intro sg hm c hc
    have hok := hsegs sg hm
    cases sg with
    | lit s =>
      have h4 := hok c hc
      exact ⟨h4.2.1, h4.2.2.1, h4.2.2.2.1, h4.2.2.2.2⟩
    | hole n =>
      obtain ⟨_, _, v, hv, hvc⟩ := hok
      rw [show segValue input (SegSpec.hole n) = goFormat v by simp [segValue, hv]] at hc
      exact hvc c hc
  have hflat : ∀ c ∈ (segs.flatMap fun sg => '/' :: (segValue input sg).data),
      c ≠ '?' ∧ c ≠ '#' ∧ c ≠ '%' := by
    intro c hc
    rw [List.mem_flatMap] at hc
    obtain ⟨sg, hm, hc2⟩ := hc
    rcases List.mem_cons.mp hc2 with hEq | hc3
    · subst hEq
      exact ⟨by decide, by decide, by decide⟩
    · have h4 := hvals sg hm c hc3
      exact ⟨h4.2.1, h4.2.2.1, h4.2.2.2⟩
  have hshape : (segs.flatMap fun sg => '/' :: (segValue input sg).data) = []
      ∨ ∃ tail, (segs.flatMap fun sg => '/' :: (segValue input sg).data) = '/' :: tail := by
    cases segs with
    | nil => exact Or.inl rfl
    | cons sg rest =>
      refine Or.inr ⟨(segValue input sg).data
        ++ rest.flatMap fun sg2 => '/' :: (segValue input sg2).data, ?_⟩
      rw [List.flatMap_cons, List.cons_append]
  have htrim : trimSuffixSlash (scheme ++ "://" ++ host) = scheme ++ "://" ++ host := by
    have hl : ¬((scheme ++ "://" ++ host).data.getLast? = some '/') := by
      rw [String.data_append, List.getLast?_append_of_ne_nil _ hhostne]
      intro hEq
      exact (hhost '/' (List.mem_of_mem_getLast? hEq)).1 rfl
    unfold trimSuffixSlash
    rw [if_neg hl]
  refine ⟨?_, pathSegments_template segs input
    (fun sg hm hmem => (hvals sg hm '/' hmem).1 rfl)⟩
  unfold buildURL
  simp only [substPath_template segs input hsegs]
  rw [if_true, htrim]
  exact urlParse_wellformed scheme host _ hscheme hhostne hhost hflat hshape

/-- Counterexample to C9 as stated: with the template `/users/\x7bid\x7d`
and the input value `a/b`, substitution succeeds, but re-parsing the
resulting URL yields the segments `users`, `a`, `b` — the input value
`a/b` does not appear in the corresponding (second) path segment. -/
theorem buildURL_roundtrip_counterexample :
    buildURL "http://h" "/users/\x7bid\x7d" [("id", GoValue.str "a/b")]
      = Except.ok ⟨"http", "h", "/users/a/b", "", ""⟩
    ∧ pathSegments "/users/a/b" = ["", "users", "a", "b"]
    ∧ (["", "users", "a", "b"] : List String) ≠ ["", "users", "a/b"] := by
  exact ⟨rfl, rfl, by decide⟩

/-- Witness for the amended C9: the template `/users/\x7bid\x7d` with the
value `123` round-trips — the re-parsed path segments are exactly `""`,
`users`, `123`. -/
theorem buildURL_roundtrip_witness :
    buildURL ("http" ++ "://" ++ "h")
        (templateOfSegs [SegSpec.lit "users", SegSpec.hole "id"])
        [("id", GoValue.str "123")]
      = Except.ok ⟨"http", "h", "/users/123", "", ""⟩
    ∧ pathSegments "/users/123"
        = "" :: [SegSpec.lit "users", SegSpec.hole "id"].map
            (segValue [("id", GoValue.str "123")]) := by
  have h := buildURL_roundtrip "http" "h" [SegSpec.lit "users", SegSpec.hole "id"]
    [("id", GoValue.str "123")]
    (by intro c hc; refine ⟨?_, ?_, ?_⟩ <;> · intro hEq; subst hEq; revert hc; decide)
    (by decide)
    (by intro c hc; refine ⟨?_, ?_, ?_⟩ <;> · intro hEq; subst hEq; revert hc; decide)
    (by
      intro sg hm
      rcases List.mem_cons.mp hm with hEq | hm2
      · subst hEq
        intro c hc
        refine ⟨?_, ?_, ?_, ?_, ?_⟩ <;> · intro hEq; subst hEq; revert hc; decide
      · rcases List.mem_cons.mp hm2 with hEq | hm3
        · subst hEq
          refine ⟨by decide, by intro c hc; intro hEq; subst hEq; revert hc; decide,
            GoValue.str "123", rfl, ?_⟩
          intro c hc
          refine ⟨?_, ?_, ?_, ?_⟩ <;> · intro hEq; subst hEq; revert hc; decide
        · cases hm3)
  exact h
